import Mathlib

/-!
# webhookd: `pkg/model/work_request.go`

A shallow embedding of the work-request model of webhookd and the properties of
its lifecycle operations (`NewWorkRequest`, `Terminate`, `IsTerminated`) and of
the log extractor (`GetLogContent`).

Conventions of the embedding:

* a Go `string` is an immutable sequence of bytes, `List UInt8`;
* a Go `error` interface value is `Option GoError`, `none` being `nil`;
* a method with a pointer receiver takes the receiver's value and returns the
  value after the call next to its result;
* every method body runs under the receiver's mutex, so each call is one atomic
  step on the receiver; the mutex and the message channel carry no data and are
  not fields of the embedded structure;
* the file system, the clock, the process-wide counter and the line scanner are
  explicit arguments.
-/

namespace Webhookd

/-! ## Go strings -/

/-- A Go string: an immutable sequence of bytes. -/
abbrev GoString := List UInt8

/-- An ASCII string literal of the source as a Go string. -/
def lit (s : String) : GoString := s.data.map (fun c => UInt8.ofNat c.toNat)

/-- Go `strings.HasPrefix`: `len(s) >= len(prefix) && s[0:len(prefix)] == prefix`. -/
def HasPrefix (s pre : GoString) : Bool :=
  decide (pre.length ≤ s.length) && (s.take pre.length == pre)

/-- Go `strings.TrimPrefix`: `s[len(prefix):]` when `s` has the prefix, else `s`. -/
def TrimPrefix (s pre : GoString) : GoString :=
  if HasPrefix s pre then s.drop pre.length else s

/-- Go `strings.trimLeftByte`: `for len(s) > 0 && s[0] == c { s = s[1:] }`. -/
def trimLeftByte : GoString → UInt8 → GoString
  | [], _ => []
  | b :: s, c => if b = c then trimLeftByte s c else b :: s

/-- Go `strings.TrimLeft(s, " ")`: the cutset is the single ASCII byte 0x20, for which
`TrimLeft` is `trimLeftByte(s, ' ')`. -/
def TrimLeftSpace (s : GoString) : GoString := trimLeftByte s 32

/-- Go `fmt` of an unsigned integer under `%d`: the digit loop
`for u >= 10 { next := u / 10; buf[i] = '0' + u - next*10; u = next }; buf[i] = '0' + u`.
Each round divides `u` by ten, so the loop is over before `fuel = u + 1` rounds. -/
def fmtUintLoop : Nat → Nat → GoString → GoString
  | 0, u, acc => UInt8.ofNat (48 + u % 10) :: acc
  | fuel + 1, u, acc =>
    if 10 ≤ u then fmtUintLoop fuel (u / 10) (UInt8.ofNat (48 + (u - u / 10 * 10)) :: acc)
    else UInt8.ofNat (48 + u) :: acc

/-- The decimal text of an unsigned integer, as `%d` prints it. -/
def fmtUint (u : Nat) : GoString := fmtUintLoop (u + 1) u []

/-! ## Errors -/

/-- A non-nil Go error value; `Error` is the text its `Error()` method returns. -/
structure GoError where
  Error : GoString
deriving DecidableEq, Repr

/-- Go `*fs.PathError`, the error type of a failed `os.Open`. -/
structure PathError where
  Op : GoString
  Path : GoString
  Err : GoError
deriving DecidableEq, Repr

/-- Go `(*PathError).Error`: `e.Op + " " + e.Path + ": " + e.Err.Error()`. -/
def PathError.Error (e : PathError) : GoString :=
  e.Op ++ lit " " ++ e.Path ++ lit ": " ++ e.Err.Error

/-! ## The work request -/

/-- WorkStatus is the status of a workload. -/
inductive WorkStatus where
  | Idle
  | Running
  | Success
  | Error
deriving DecidableEq, Repr

/-- WorkRequest is a request of work for a worker. -/
structure WorkRequest where
  ID : Nat
  Name : GoString
  Script : GoString
  Payload : GoString
  Args : List GoString
  Timeout : Int
  Status : WorkStatus
  ArgFilename : GoString
  LogFilename : GoString
  Err : Option GoError
deriving DecidableEq, Repr

/-- The outcome of one `Terminate` call: the returned error, the receiver after the
call, and the line handed to the operational logger. -/
structure TerminateResult where
  ret : Option GoError
  wr : WorkRequest
  logged : GoString
deriving DecidableEq, Repr

/-- Terminate set work request as terminated. -/
def Terminate (wr : WorkRequest) (err : Option GoError) : TerminateResult :=
  match err with
  | some e =>
    { ret := some e
      wr := { wr with Status := WorkStatus.Error, Err := some e }
      logged := lit "hook " ++ wr.Name ++ lit "#" ++ fmtUint wr.ID ++ lit " done [ERROR]\n" }
  | none =>
    { ret := none
      wr := { wr with Status := WorkStatus.Success }
      logged := lit "hook " ++ wr.Name ++ lit "#" ++ fmtUint wr.ID ++ lit " done [SUCCESS]\n" }

/-- IsTerminated ask if the work request is terminated. -/
def IsTerminated (wr : WorkRequest) : Bool × WorkRequest :=
  (decide (wr.Status = WorkStatus.Success) || decide (wr.Status = WorkStatus.Error), wr)

/-! ## Construction: identifier, clock and file names -/

/-- The wall-clock reading of one `time.Now()` call, in the fields the layout
`20060102_1504` prints. -/
structure Time where
  year : Nat
  month : Nat
  day : Nat
  hour : Nat
  minute : Nat
deriving DecidableEq, Repr

/-- Go `time.appendInt` on a non-negative value: the decimal digits, zero-padded
on the left to `width`. -/
def appendInt (x width : Nat) : GoString :=
  List.replicate (width - (fmtUint x).length) 48 ++ fmtUint x

/-- Go `time.Now().Format("20060102_1504")`: four-digit year, two-digit month and
day, a literal underscore, two-digit hour and minute. -/
def Time.Format (t : Time) : GoString :=
  appendInt t.year 4 ++ appendInt t.month 2 ++ appendInt t.day 2 ++ lit "_" ++
    appendInt t.hour 2 ++ appendInt t.minute 2

/-- The inner loop of the `..` case of Go `path.Clean` on the reversed output buffer:
`out.w--; for out.w > dotdot && out.index(out.w) != '/' { out.w-- }`. -/
def backtrack (dotdot : Nat) : GoString → GoString
  | [] => []
  | b :: rest => if decide (dotdot < rest.length) && (b != 47) then backtrack dotdot rest else rest

/-- The main loop of Go `path.Clean`, `for r < n { switch ... }`, over the bytes of
the path not yet read, the output buffer in reverse, and the index `dotdot` below
which `..` may not backtrack. Each round reads at least one byte, which bounds the
loop by `fuel`. -/
def cleanLoop (rooted : Bool) : Nat → GoString → GoString → Nat → GoString
  | 0, _, rout, _ => rout
  | _ + 1, [], rout, _ => rout
  | fuel + 1, c :: rest, rout, dotdot =>
    if c = 47 then
      cleanLoop rooted fuel rest rout dotdot
    else if c = 46 ∧ (rest = [] ∨ rest.head? = some 47) then
      cleanLoop rooted fuel rest rout dotdot
    else if c = 46 ∧ rest.head? = some 46 ∧ (rest.tail = [] ∨ rest.tail.head? = some 47) then
      if dotdot < rout.length then
        cleanLoop rooted fuel rest.tail (backtrack dotdot rout) dotdot
      else if rooted = false then
        let rout1 := if 0 < rout.length then 47 :: rout else rout
        cleanLoop rooted fuel rest.tail (46 :: 46 :: rout1) (rout1.length + 2)
      else
        cleanLoop rooted fuel rest.tail rout dotdot
    else
      let rout1 :=
        if (rooted = true ∧ rout.length ≠ 1) ∨ (rooted = false ∧ rout.length ≠ 0) then 47 :: rout
        else rout
      cleanLoop rooted fuel ((c :: rest).dropWhile (fun b => b != 47))
        (((c :: rest).takeWhile (fun b => b != 47)).reverse ++ rout1) dotdot

/-- Go `path.Clean`: the shortest equivalent path by lexical processing. -/
def Clean (path : GoString) : GoString :=
  match path with
  | [] => lit "."
  | c :: rest =>
    let rout :=
      if c = 47 then cleanLoop true (rest.length + 1) rest [47] 1
      else cleanLoop false (rest.length + 2) (c :: rest) [] 0
    if rout.length = 0 then lit "." else rout.reverse

/-- The buffer loop of Go `path.Join`: non-empty elements separated by `/`. -/
def joinBuf : GoString → List GoString → GoString
  | buf, [] => buf
  | buf, e :: es =>
    if 0 < buf.length ∨ e ≠ [] then
      joinBuf ((if 0 < buf.length then buf ++ [47] else buf) ++ e) es
    else joinBuf buf es

/-- Go `path.Join`: `""` when every element is empty, else `Clean` of the
slash-separated non-empty elements. -/
def Join (elems : List GoString) : GoString :=
  if (elems.map List.length).sum = 0 then [] else Clean (joinBuf [] elems)

/-- Go `atomic.AddUint64(&workID, 1)`: the counter after the add, which is also
the value returned. -/
def AddUint64 (workID : Nat) : Nat := (workID + 1) % 2 ^ 64

/-- The file name `fmt.Sprintf("%s_%d_%s" + suffix, snake, id, stamp)`. -/
def sprintfName (snake : GoString) (id : Nat) (stamp suffix : GoString) : GoString :=
  snake ++ lit "_" ++ fmtUint id ++ lit "_" ++ stamp ++ suffix

/-- NewWorkRequest creates new work request. `ToSnake` is `strcase.ToSnake`, `workID`
the package counter before the call, `now1` and `now2` the readings of the two
`time.Now()` calls; the result is the new request and the counter after the call. -/
def NewWorkRequest (ToSnake : GoString → GoString) (workID : Nat) (now1 now2 : Time)
    (name script payload output : GoString) (args : List GoString) (timeout : Int) :
    WorkRequest × Nat :=
  let id := AddUint64 workID
  let w : WorkRequest :=
    { ID := id
      Name := name
      Script := script
      Payload := payload
      Args := args
      Timeout := timeout
      Status := WorkStatus.Idle
      ArgFilename := []
      LogFilename := []
      Err := none }
  let w1 := { w with
    ArgFilename := Join [output, sprintfName (ToSnake w.Name) w.ID now1.Format (lit ".arg")] }
  let w2 := { w1 with
    LogFilename := Join [output, sprintfName (ToSnake w1.Name) w1.ID now2.Format (lit ".txt")] }
  (w2, id)

/-! ## The log file and its scanner -/

/-- A `bufio.Scanner` over an opened file, seen through its interface: the line
tokens that successive `Scan` calls will still deliver, the token of the last
successful `Scan`, and the error `Err()` reports once scanning has stopped
(`none` when the scan stops at end of file). -/
structure Scanner where
  pending : List GoString
  text : GoString
  failure : Option GoError
deriving DecidableEq, Repr

/-- Go `(*Scanner).Scan`: advance to the next token; `false` when the scan stops. -/
def Scanner.Scan (s : Scanner) : Bool × Scanner :=
  match s.pending with
  | [] => (false, { s with text := [] })
  | l :: rest => (true, { s with pending := rest, text := l })

/-- Go `(*Scanner).Text`: the most recent token. -/
def Scanner.Text (s : Scanner) : GoString := s.text

/-- Go `(*Scanner).Err`: the first non-EOF error met by the scanner. -/
def Scanner.Err (s : Scanner) : Option GoError :=
  match s.pending with
  | [] => s.failure
  | _ :: _ => none

/-- An opened log file: the lines a scan of it delivers and the error the scan
ends with, if any. -/
structure File where
  lines : List GoString
  scanErr : Option GoError
deriving DecidableEq, Repr

/-- Go `bufio.NewScanner(file)`. -/
def NewScanner (f : File) : Scanner :=
  { pending := f.lines, text := [], failure := f.scanErr }

/-- The file system as `os.Open` sees it: a path opens to a file or fails with a
`*PathError`. -/
abbrev FileSystem := GoString → Except PathError File

/-- The scan loop of `GetLogContent`:
`for scanner.Scan() { line := scanner.Text(); if strings.HasPrefix(...) {...} }`,
threading the scanner and the result buffer. Each iteration consumes one pending
token, which bounds the loop by `fuel`. -/
def scanLoop (prefixFilter : GoString) : Nat → Scanner → GoString → Option (Scanner × GoString)
  | 0, _, _ => none
  | fuel + 1, scanner, result =>
    match scanner.Scan with
    | (false, scanner1) => some (scanner1, result)
    | (true, scanner1) =>
      let line := scanner1.Text
      if HasPrefix line prefixFilter then
        let line1 := TrimPrefix line prefixFilter
        let line2 := TrimLeftSpace line1
        scanLoop prefixFilter fuel scanner1 (result ++ (line2 ++ lit "\n"))
      else
        scanLoop prefixFilter fuel scanner1 result

/-- GetLogContent returns work logs filtered with the prefix. The result is `none`
only if the scan loop were cut short by its bound, which `pending.length + 1`
iterations exclude. -/
def GetLogContent (fs : FileSystem) (wr : WorkRequest) (prefixFilter : GoString) :
    Option GoString × WorkRequest :=
  match fs wr.LogFilename with
  | Except.error err => (some err.Error, wr)
  | Except.ok file =>
    let scanner := NewScanner file
    match scanLoop prefixFilter (scanner.pending.length + 1) scanner [] with
    | none => (none, wr)
    | some (scanner1, result) =>
      match scanner1.Err with
      | some err => (some err.Error, wr)
      | none => (some result, wr)

/-- The number a decimal text denotes, digit by digit from the left. -/
def decValue (s : GoString) : Nat := s.foldl (fun n b => n * 10 + (b.toNat - 48)) 0

/-! ## Sequences of calls -/

/-- The receiver after a finite sequence of `Terminate` calls, one per argument. -/
def terminateAll (wr : WorkRequest) (calls : List (Option GoError)) : WorkRequest :=
  calls.foldl (fun w err => (Terminate w err).wr) wr

/-- One call of an operation of the package on a work item. -/
inductive Call where
  | terminate (err : Option GoError)
  | isTerminated
  | getLogContent (prefixFilter : GoString)
deriving DecidableEq, Repr

/-- The receiver after one call. -/
def Call.after (fs : FileSystem) (wr : WorkRequest) : Call → WorkRequest
  | Call.terminate err => (Terminate wr err).wr
  | Call.isTerminated => (IsTerminated wr).2
  | Call.getLogContent prefixFilter => (GetLogContent fs wr prefixFilter).2

/-! ## The filtered view as the specification words it -/

/-- The filtered view of the lines `L` under the prefix `p`, in the words of the
specification: over exactly the lines that begin with `p`, in file order, the line
with the leading `p` removed, then its leading space bytes removed, then a newline. -/
def filteredView (p : GoString) (L : List GoString) : GoString :=
  ((L.filter (fun l => decide (p <+: l))).map
    (fun l => (l.drop p.length).dropWhile (fun b => b == 32) ++ [10])).flatten

/-! ## Sequences of constructions -/

/-- The arguments of one `NewWorkRequest` call and the two clock readings it takes. -/
structure Creation where
  now1 : Time
  now2 : Time
  name : GoString
  script : GoString
  payload : GoString
  output : GoString
  args : List GoString
  timeout : Int
deriving DecidableEq, Repr

/-- The work items a sequence of `NewWorkRequest` calls returns, in call order; the
package counter `workID` is threaded from each call to the next. -/
def createAll (ToSnake : GoString → GoString) : Nat → List Creation → List WorkRequest
  | _, [] => []
  | workID, c :: cs =>
    (NewWorkRequest ToSnake workID c.now1 c.now2 c.name c.script c.payload c.output c.args
        c.timeout).1 ::
      createAll ToSnake
        (NewWorkRequest ToSnake workID c.now1 c.now2 c.name c.script c.payload c.output c.args
          c.timeout).2 cs

/-! ## The bytes of a log file -/

/-- Go `bufio.dropCR`: drop one terminal carriage return from the data. -/
def dropCR (data : GoString) : GoString :=
  if data.getLast? = some 13 then data.dropLast else data

/-- The tokens Go `bufio.ScanLines` cuts from the bytes still to read, `cur` being the
bytes read since the last newline: each newline ends a token, the bytes before it
without one terminal carriage return; bytes left at the end of the file make a last
token; nothing left at the end makes none. -/
def scanAcc (cur : GoString) : GoString → List GoString
  | [] => if cur = [] then [] else [dropCR cur]
  | b :: data => if b = 10 then dropCR cur :: scanAcc [] data else scanAcc (cur ++ [b]) data

/-- The lines a `bufio.Scanner` with the default split function delivers for the
bytes of a file. -/
def scanLines (data : GoString) : List GoString := scanAcc [] data

/-! ## Concrete inputs -/

/-- A clock reading: 7 March 2024, 09:05. -/
def sampleTime : Time := { year := 2024, month := 3, day := 7, hour := 9, minute := 5 }

/-- A work item as `NewWorkRequest` returns it for the hook `echo`, first of its process. -/
def sampleWork : WorkRequest :=
  (NewWorkRequest id 0 sampleTime sampleTime (lit "echo") (lit "echo.sh") (lit "x=1")
    (lit "/tmp") [lit "a"] 10).1

/-- The work item `NewWorkRequest` returns next for the same hook in the same minute. -/
def sampleWorkNext : WorkRequest :=
  (NewWorkRequest id 1 sampleTime sampleTime (lit "echo") (lit "echo.sh") (lit "x=2")
    (lit "/tmp") [lit "b"] 10).1

/-- An error value an executor may report. -/
def sampleErr : GoError := { Error := lit "exit status 1" }

/-- The lines of a small log. -/
def sampleLines : List GoString := [lit "INFO hello", lit "DEBUG skip", lit "INFO world"]

/-- A file system holding the log of `sampleWork` and nothing else. -/
def sampleFS : FileSystem := fun path =>
  if path = sampleWork.LogFilename then Except.ok { lines := sampleLines, scanErr := none }
  else Except.error
    { Op := lit "open", Path := path, Err := { Error := lit "no such file or directory" } }

/-- The lines of a log with indented lines: two spaces, a trailing space, a space
before a tab. -/
def sampleIndentedLines : List GoString := [lit "  two", lit "none ", lit " \tone"]

/-- A file system holding an indented log for `sampleWork`. -/
def sampleIndentedFS : FileSystem := fun path =>
  if path = sampleWork.LogFilename then
    Except.ok { lines := sampleIndentedLines, scanErr := none }
  else Except.error
    { Op := lit "open", Path := path, Err := { Error := lit "no such file or directory" } }

/-- A work item whose log file was never written. -/
def sampleLostWork : WorkRequest := { sampleWork with LogFilename := lit "/tmp/lost.txt" }

/-- A file system on which the scan of the log of `sampleWork` delivers two lines
and then fails on an overlong one. -/
def sampleBrokenFS : FileSystem := fun path =>
  if path = sampleWork.LogFilename then
    Except.ok
      { lines := [lit "INFO hello", lit "DEBUG skip"]
        scanErr := some { Error := lit "bufio.Scanner: token too long" } }
  else Except.error
    { Op := lit "open", Path := path, Err := { Error := lit "no such file or directory" } }

/-- The clock one minute after `sampleTime`: 7 March 2024, 09:06. -/
def sampleLaterTime : Time := { year := 2024, month := 3, day := 7, hour := 9, minute := 6 }

/-- The work item `NewWorkRequest` returns when the minute changes between its two
clock readings. -/
def sampleSplitWork : WorkRequest :=
  (NewWorkRequest id 0 sampleTime sampleLaterTime (lit "echo") (lit "echo.sh") (lit "x=1")
    (lit "/tmp") [lit "a"] 10).1

/-- The arguments of the call that returns `sampleWork`. -/
def sampleCreation : Creation :=
  { now1 := sampleTime, now2 := sampleTime, name := lit "echo", script := lit "echo.sh"
    payload := lit "x=1", output := lit "/tmp", args := [lit "a"], timeout := 10 }

/-- A file system holding a log of the given lines for `sampleWork` and nothing else. -/
def sampleFSOf (L : List GoString) : FileSystem := fun path =>
  if path = sampleWork.LogFilename then Except.ok { lines := L, scanErr := none }
  else Except.error
    { Op := lit "open", Path := path, Err := { Error := lit "no such file or directory" } }

/-! ## Termination -/

/-- C1: for every work item, whatever its status, and every non-nil error `e`,
`Terminate(e)` returns exactly `e`, and afterwards `Status = Error` and `Err = e`. -/
theorem terminate_error_stores_and_returns (wr : WorkRequest) (e : GoError) :
    (Terminate wr (some e)).ret = some e ∧
    (Terminate wr (some e)).wr.Status = WorkStatus.Error ∧
    (Terminate wr (some e)).wr.Err = some e :=
  ⟨rfl, rfl, rfl⟩

/-- C2: on a work item whose `Err` is nil, `Terminate(nil)` returns nil, sets
`Status = Success` and leaves `Err` nil; on any work item `Terminate(nil)` leaves
`Err` as it was. -/
theorem terminate_nil_success (wr : WorkRequest) (h : wr.Err = none) :
    (Terminate wr none).ret = none ∧
    (Terminate wr none).wr.Status = WorkStatus.Success ∧
    (Terminate wr none).wr.Err = none ∧
    ∀ w : WorkRequest, (Terminate w none).wr.Err = w.Err :=
  ⟨rfl, rfl, h, fun _ => rfl⟩

/-- C2 at a freshly constructed work item. -/
theorem terminate_nil_success_witness :
    sampleWork.Err = none ∧
    (Terminate sampleWork none).ret = none ∧
    (Terminate sampleWork none).wr.Status = WorkStatus.Success ∧
    (Terminate sampleWork none).wr.Err = none ∧
    ∀ w : WorkRequest, (Terminate w none).wr.Err = w.Err :=
  ⟨by decide, terminate_nil_success sampleWork (by decide)⟩

/-- A run of `Terminate` calls that all pass nil leaves `Err` as it was. -/
theorem terminateAll_nil_err (calls : List (Option GoError)) :
    ∀ wr : WorkRequest, (∀ c ∈ calls, c = none) → (terminateAll wr calls).Err = wr.Err := by
  induction calls with
  | nil => intro wr _; rfl
  | cons c cs ih =>
    intro wr h
    have hc : c = none := h c (List.mem_cons_self c cs)
    subst hc
    have htail : ∀ d ∈ cs, d = none := fun d hd => h d (List.mem_cons_of_mem _ hd)
    show (terminateAll (Terminate wr none).wr cs).Err = wr.Err
    rw [ih (Terminate wr none).wr htail]
    rfl

/-- Unfolding `terminateAll` at the last call of the sequence. -/
theorem terminateAll_snoc (wr : WorkRequest) (calls : List (Option GoError))
    (c : Option GoError) :
    terminateAll wr (calls ++ [c]) = (Terminate (terminateAll wr calls) c).wr := by
  simp [terminateAll, List.foldl_append]

/-- A freshly constructed work item is idle and carries no error. -/
theorem newWorkRequest_status_err (ToSnake : GoString → GoString) (workID : Nat)
    (now1 now2 : Time) (name script payload output : GoString) (args : List GoString)
    (timeout : Int) :
    (NewWorkRequest ToSnake workID now1 now2 name script payload output args timeout).1.Status
        = WorkStatus.Idle ∧
    (NewWorkRequest ToSnake workID now1 now2 name script payload output args timeout).1.Err
        = none :=
  ⟨rfl, rfl⟩

/-- C3, as the claim states it, fails: after `Terminate(e)` and then `Terminate(nil)`
on a fresh work item, `Err` is still `e` while `Status` is `Success`. -/
theorem status_err_pairing_counterexample :
    (terminateAll sampleWork [some sampleErr, none]).Err = some sampleErr ∧
    (terminateAll sampleWork [some sampleErr, none]).Status = WorkStatus.Success ∧
    ¬ ((terminateAll sampleWork [some sampleErr, none]).Err ≠ none ↔
        (terminateAll sampleWork [some sampleErr, none]).Status = WorkStatus.Error) := by
  decide

/-- C3, amended: in every state reachable from a freshly constructed work item by a
finite sequence of `Terminate` calls, `Status = Error` implies `Err ≠ nil`; and
`Err ≠ nil ↔ Status = Error` holds whenever the last call passed a non-nil error or
every call passed nil (so on the fresh item and after any single call). -/
theorem status_err_pairing (ToSnake : GoString → GoString) (workID : Nat)
    (now1 now2 : Time) (name script payload output : GoString) (args : List GoString)
    (timeout : Int) (calls : List (Option GoError)) :
    ((terminateAll
        (NewWorkRequest ToSnake workID now1 now2 name script payload output args timeout).1
        calls).Status = WorkStatus.Error →
      (terminateAll
        (NewWorkRequest ToSnake workID now1 now2 name script payload output args timeout).1
        calls).Err ≠ none) ∧
    ((calls.getLast? = some none → ∀ c ∈ calls, c = none) →
      ((terminateAll
          (NewWorkRequest ToSnake workID now1 now2 name script payload output args timeout).1
          calls).Err ≠ none ↔
        (terminateAll
          (NewWorkRequest ToSnake workID now1 now2 name script payload output args timeout).1
          calls).Status = WorkStatus.Error)) := by
  generalize hw :
    (NewWorkRequest ToSnake workID now1 now2 name script payload output args timeout).1 = fresh
  have hfresh : fresh.Status = WorkStatus.Idle ∧ fresh.Err = none := by
    rw [← hw]
    exact newWorkRequest_status_err ToSnake workID now1 now2 name script payload output args
      timeout
  rcases List.eq_nil_or_concat calls with hnil | ⟨init, c, hcalls⟩
  · subst hnil
    have hs : (terminateAll fresh []).Status = WorkStatus.Idle := hfresh.1
    have he : (terminateAll fresh []).Err = none := hfresh.2
    simp [hs, he]
  · subst hcalls
    rw [List.concat_eq_append, terminateAll_snoc]
    cases c with
    | some e =>
      have hs : (Terminate (terminateAll fresh init) (some e)).wr.Status = WorkStatus.Error := rfl
      have he : (Terminate (terminateAll fresh init) (some e)).wr.Err = some e := rfl
      simp [hs, he]
    | none =>
      have hs : (Terminate (terminateAll fresh init) none).wr.Status = WorkStatus.Success := rfl
      have he : (Terminate (terminateAll fresh init) none).wr.Err
          = (terminateAll fresh init).Err := rfl
      refine ⟨by simp [hs], ?_⟩
      intro hall
      have hinit : ∀ d ∈ init, d = none := fun d hd =>
        hall (by simp) d (List.mem_append_left _ hd)
      rw [hs, he, terminateAll_nil_err init fresh hinit, hfresh.2]
      simp

/-- C3, amended, at a fresh work item terminated first with nil and then with an
error. -/
theorem status_err_pairing_witness :
    ([none, some sampleErr].getLast? = some none →
        ∀ c ∈ [none, some sampleErr], c = (none : Option GoError)) ∧
    ((terminateAll sampleWork [none, some sampleErr]).Err ≠ none ↔
      (terminateAll sampleWork [none, some sampleErr]).Status = WorkStatus.Error) :=
  ⟨by decide,
    (status_err_pairing id 0 sampleTime sampleTime (lit "echo") (lit "echo.sh") (lit "x=1")
      (lit "/tmp") [lit "a"] 10 [none, some sampleErr]).2 (by decide)⟩

/-- C4, as the claim states it, fails: `Terminate(e)` on a work item in status
`Success` moves it to `Error` and stores `e`. -/
theorem terminal_pair_absorbing_counterexample :
    (Terminate sampleWork none).wr.Status = WorkStatus.Success ∧
    ((Call.after sampleFS (Terminate sampleWork none).wr
          (Call.terminate (some sampleErr))).Status,
      (Call.after sampleFS (Terminate sampleWork none).wr
          (Call.terminate (some sampleErr))).Err) ≠
      ((Terminate sampleWork none).wr.Status, (Terminate sampleWork none).wr.Err) := by
  decide

/-- The receiver comes back from `GetLogContent` as it went in. -/
theorem getLogContent_receiver (fs : FileSystem) (wr : WorkRequest) (p : GoString) :
    (GetLogContent fs wr p).2 = wr := by
  unfold GetLogContent
  split
  · rfl
  · dsimp only
    split
    · rfl
    · split <;> rfl

/-- C4, amended: on a work item whose `Status` is `Success` or `Error`, every
operation of the package leaves `Status` in `Success` or `Error`; `IsTerminated` and
`GetLogContent` leave the `(Status, Err)` pair exactly as it was; `Terminate(nil)`
sets `Status = Success` and keeps `Err`, and `Terminate(e)` with a non-nil `e` sets
the pair to `(Error, e)`. -/
theorem terminal_status_absorbing (fs : FileSystem) (wr : WorkRequest)
    (h : wr.Status = WorkStatus.Success ∨ wr.Status = WorkStatus.Error) :
    (∀ c : Call, (Call.after fs wr c).Status = WorkStatus.Success ∨
        (Call.after fs wr c).Status = WorkStatus.Error) ∧
    ((Call.after fs wr Call.isTerminated).Status, (Call.after fs wr Call.isTerminated).Err)
        = (wr.Status, wr.Err) ∧
    (∀ p : GoString,
      ((Call.after fs wr (Call.getLogContent p)).Status,
        (Call.after fs wr (Call.getLogContent p)).Err) = (wr.Status, wr.Err)) ∧
    ((Call.after fs wr (Call.terminate none)).Status,
        (Call.after fs wr (Call.terminate none)).Err) = (WorkStatus.Success, wr.Err) ∧
    (∀ e : GoError,
      ((Call.after fs wr (Call.terminate (some e))).Status,
        (Call.after fs wr (Call.terminate (some e))).Err) = (WorkStatus.Error, some e)) := by
  refine ⟨?_, rfl, ?_, rfl, fun _ => rfl⟩
  · intro c
    cases c with
    | terminate err =>
      cases err with
      | none => exact Or.inl rfl
      | some e => exact Or.inr rfl
    | isTerminated => exact h
    | getLogContent p =>
      show (GetLogContent fs wr p).2.Status = _ ∨ (GetLogContent fs wr p).2.Status = _
      rw [getLogContent_receiver]
      exact h
  · intro p
    show ((GetLogContent fs wr p).2.Status, (GetLogContent fs wr p).2.Err) = _
    rw [getLogContent_receiver]

/-- C4, amended, at a work item terminated with an error. -/
theorem terminal_status_absorbing_witness :
    ((Terminate sampleWork (some sampleErr)).wr.Status = WorkStatus.Success ∨
      (Terminate sampleWork (some sampleErr)).wr.Status = WorkStatus.Error) ∧
    (∀ c : Call,
      (Call.after sampleFS (Terminate sampleWork (some sampleErr)).wr c).Status
          = WorkStatus.Success ∨
        (Call.after sampleFS (Terminate sampleWork (some sampleErr)).wr c).Status
          = WorkStatus.Error) :=
  ⟨by decide,
    (terminal_status_absorbing sampleFS (Terminate sampleWork (some sampleErr)).wr
      (by decide)).1⟩

/-- C5: `IsTerminated` returns false on a work item just returned by `NewWorkRequest`,
and true on the item after any `Terminate` call, whatever the argument of the call
and whatever the status of the item before it. -/
theorem isTerminated_fresh_and_after_terminate :
    (∀ (ToSnake : GoString → GoString) (workID : Nat) (now1 now2 : Time)
        (name script payload output : GoString) (args : List GoString) (timeout : Int),
      (IsTerminated
        (NewWorkRequest ToSnake workID now1 now2 name script payload output args timeout).1).1
        = false) ∧
    (∀ (wr : WorkRequest) (err : Option GoError),
      (IsTerminated (Terminate wr err).wr).1 = true) := by
  constructor
  · intros
    rfl
  · intro wr err
    cases err <;> rfl

/-! ## The log extractor -/

/-- Go `strings.HasPrefix` decides the prefix relation on byte sequences. -/
theorem hasPrefix_iff (s p : GoString) : HasPrefix s p = true ↔ p <+: s := by
  unfold HasPrefix
  rw [List.prefix_iff_eq_take]
  constructor
  · intro h
    simp only [Bool.and_eq_true, decide_eq_true_eq, beq_iff_eq] at h
    exact h.2.symm
  · intro h
    simp only [Bool.and_eq_true, decide_eq_true_eq, beq_iff_eq]
    refine ⟨?_, h.symm⟩
    have hlen := congrArg List.length h
    rw [List.length_take] at hlen
    omega

/-- Go `strings.TrimLeft(s, " ")` drops the leading run of space bytes. -/
theorem trimLeftSpace_eq (s : GoString) :
    TrimLeftSpace s = s.dropWhile (fun b => b == 32) := by
  unfold TrimLeftSpace
  induction s with
  | nil => rfl
  | cons b s ih =>
    by_cases hb : b = 32
    · simp [trimLeftByte, hb, ih]
    · simp [trimLeftByte, hb]

/-- The filtered view line by line, in the operations of the loop body. -/
theorem filteredView_cons (p l : GoString) (L : List GoString) :
    filteredView p (l :: L) =
      (if HasPrefix l p then TrimLeftSpace (TrimPrefix l p) ++ lit "\n" else []) ++
        filteredView p L := by
  by_cases h : HasPrefix l p = true
  · have h1 : p <+: l := (hasPrefix_iff l p).1 h
    have h2 : lit "\n" = ([10] : GoString) := by decide
    simp [filteredView, h, h1, TrimPrefix, trimLeftSpace_eq, h2]
  · have h1 : ¬ p <+: l := fun hp => h ((hasPrefix_iff l p).2 hp)
    simp [filteredView, h, h1]

/-- The scan loop runs to the end of the pending lines when its bound exceeds their
number, and appends the filtered view of those lines to the buffer. -/
theorem scanLoop_eq (p : GoString) :
    ∀ (L : List GoString) (fuel : Nat) (text : GoString) (failure : Option GoError)
      (result : GoString), L.length < fuel →
      scanLoop p fuel { pending := L, text := text, failure := failure } result =
        some ({ pending := [], text := [], failure := failure }, result ++ filteredView p L) := by
  intro L
  induction L with
  | nil =>
    intro fuel text failure result hfuel
    cases fuel with
    | zero => omega
    | succ n => simp [scanLoop, Scanner.Scan, filteredView]
  | cons l L ih =>
    intro fuel text failure result hfuel
    cases fuel with
    | zero => omega
    | succ n =>
      have hn : L.length < n := by simpa using hfuel
      rw [filteredView_cons]
      by_cases h : HasPrefix l p = true
      · simp [scanLoop, Scanner.Scan, Scanner.Text, h, ih n l failure _ hn, List.append_assoc]
      · simp [scanLoop, Scanner.Scan, Scanner.Text, h, ih n l failure _ hn]

/-- The result of `GetLogContent` on a file that opens: the scan error's text if the scan ends
with an error, else the filtered view of the lines. -/
theorem getLogContent_opened (fs : FileSystem) (wr : WorkRequest) (p : GoString)
    (L : List GoString) (scanErr : Option GoError)
    (h : fs wr.LogFilename = Except.ok { lines := L, scanErr := scanErr }) :
    (GetLogContent fs wr p).1 = some (scanErr.elim (filteredView p L) GoError.Error) := by
  unfold GetLogContent
  rw [h]
  simp only [NewScanner]
  rw [scanLoop_eq p L (L.length + 1) [] scanErr [] (Nat.lt_succ_self _)]
  cases scanErr <;> simp [Scanner.Err]

/-- C6: on a work item with a readable log file whose lines are `L`, and for every
prefix filter `p`, `GetLogContent(p)` returns the concatenation, in file order, over
exactly the lines of `L` that begin with `p`, of the line with the leading `p`
removed once, then its leading space bytes removed, then one newline. -/
theorem getLogContent_filteredView (fs : FileSystem) (wr : WorkRequest) (p : GoString)
    (L : List GoString)
    (h : fs wr.LogFilename = Except.ok { lines := L, scanErr := none }) :
    (GetLogContent fs wr p).1 = some (filteredView p L) :=
  getLogContent_opened fs wr p L none h

/-- C6 at the lines `INFO hello`, `DEBUG skip`, `INFO world` with the filter `INFO`:
the result is `hello`, `world`, each followed by a newline. -/
theorem getLogContent_filteredView_witness :
    sampleFS sampleWork.LogFilename = Except.ok { lines := sampleLines, scanErr := none } ∧
    (GetLogContent sampleFS sampleWork (lit "INFO")).1 = some (lit "hello\nworld\n") :=
  ⟨if_pos rfl,
    (getLogContent_filteredView sampleFS sampleWork (lit "INFO") sampleLines
      (if_pos rfl)).trans (by decide)⟩

/-- Under the empty filter every line is kept and only trimmed. -/
theorem filteredView_nil (L : List GoString) :
    filteredView [] L = (L.map (fun l => l.dropWhile (fun b => b == 32) ++ [10])).flatten := by
  simp [filteredView]

/-- Lines without a newline byte give one newline byte each in the trimmed output. -/
theorem count_newline_trimmed (L : List GoString) (h : ∀ l ∈ L, (10 : UInt8) ∉ l) :
    ((L.map (fun l => l.dropWhile (fun b => b == 32) ++ [10])).flatten).count 10
      = L.length := by
  induction L with
  | nil => rfl
  | cons l L ih =>
    have hl : (10 : UInt8) ∉ l := h l (List.mem_cons_self l L)
    have hdrop : (10 : UInt8) ∉ l.dropWhile (fun b => b == 32) :=
      fun hm => hl ((List.dropWhile_sublist _).subset hm)
    have htail : ∀ m ∈ L, (10 : UInt8) ∉ m := fun m hm => h m (List.mem_cons_of_mem _ hm)
    simp only [List.map_cons, List.flatten_cons, List.count_append, List.length_cons,
      ih htail, List.count_eq_zero_of_not_mem hdrop]
    simp [Nat.add_comm]

/-- C7: on a readable log file of `N` lines, `GetLogContent("")` returns `N` pieces in
file order, the `i`-th being the `i`-th line with only its leading space bytes
removed, followed by a newline; when no line holds a newline byte (as for scanner
tokens) the result has exactly `N` newline bytes. -/
theorem getLogContent_empty_filter (fs : FileSystem) (wr : WorkRequest) (L : List GoString)
    (h : fs wr.LogFilename = Except.ok { lines := L, scanErr := none }) :
    ∃ out : List GoString,
      out.length = L.length ∧
      (∀ (i : Nat) (hi : i < L.length) (ho : i < out.length),
        out[i] = L[i].dropWhile (fun b => b == 32) ++ [10]) ∧
      (GetLogContent fs wr []).1 = some out.flatten ∧
      ((∀ l ∈ L, (10 : UInt8) ∉ l) → out.flatten.count 10 = L.length) := by
  refine ⟨L.map (fun l => l.dropWhile (fun b => b == 32) ++ [10]), by simp, ?_, ?_, ?_⟩
  · intro i hi ho
    simp
  · rw [getLogContent_opened fs wr [] L none h, ← filteredView_nil]
    rfl
  · exact count_newline_trimmed L

/-- C7 at a log of three indented lines: leading spaces go, the trailing space and
the tab stay. -/
theorem getLogContent_empty_filter_witness :
    sampleIndentedFS sampleWork.LogFilename
        = Except.ok { lines := sampleIndentedLines, scanErr := none } ∧
    (GetLogContent sampleIndentedFS sampleWork []).1 = some (lit "two\nnone \n\tone\n") ∧
    ∃ out : List GoString,
      out.length = sampleIndentedLines.length ∧
      (∀ (i : Nat) (hi : i < sampleIndentedLines.length) (ho : i < out.length),
        out[i] = sampleIndentedLines[i].dropWhile (fun b => b == 32) ++ [10]) ∧
      (GetLogContent sampleIndentedFS sampleWork []).1 = some out.flatten ∧
      ((∀ l ∈ sampleIndentedLines, (10 : UInt8) ∉ l) →
        out.flatten.count 10 = sampleIndentedLines.length) :=
  ⟨if_pos rfl, by decide,
    getLogContent_empty_filter sampleIndentedFS sampleWork sampleIndentedLines (if_pos rfl)⟩

/-- C8: when opening the file at `LogFilename` fails, `GetLogContent` returns, for
every prefix filter, exactly the text of the open failure, which is not empty. -/
theorem getLogContent_open_failure (fs : FileSystem) (wr : WorkRequest) (p : GoString)
    (e : PathError) (h : fs wr.LogFilename = Except.error e) :
    (GetLogContent fs wr p).1 = some e.Error ∧ e.Error ≠ [] := by
  constructor
  · unfold GetLogContent
    rw [h]
  · have hsp : lit " " = ([32] : GoString) := by decide
    simp [PathError.Error, hsp]

/-- C8 at a work item whose log file does not exist. -/
theorem getLogContent_open_failure_witness :
    sampleFS sampleLostWork.LogFilename
        = Except.error
          { Op := lit "open", Path := lit "/tmp/lost.txt"
            Err := { Error := lit "no such file or directory" } } ∧
    (GetLogContent sampleFS sampleLostWork (lit "INFO")).1
        = some (lit "open /tmp/lost.txt: no such file or directory") :=
  ⟨if_neg (by decide),
    (getLogContent_open_failure sampleFS sampleLostWork (lit "INFO")
      { Op := lit "open", Path := lit "/tmp/lost.txt"
        Err := { Error := lit "no such file or directory" } }
      (if_neg (by decide))).1.trans (by decide)⟩

/-- C9: when the file opens and the line scan ends with an error, `GetLogContent`
returns exactly the text of the scan error, for every prefix filter and every
sequence of lines read before the error; the buffer is dropped. -/
theorem getLogContent_scan_failure (fs : FileSystem) (wr : WorkRequest) (p : GoString)
    (L : List GoString) (e : GoError)
    (h : fs wr.LogFilename = Except.ok { lines := L, scanErr := some e }) :
    (GetLogContent fs wr p).1 = some e.Error :=
  getLogContent_opened fs wr p L (some e) h

/-- C9 at a log whose scan delivers a matching line and then fails. -/
theorem getLogContent_scan_failure_witness :
    sampleBrokenFS sampleWork.LogFilename
        = Except.ok
          { lines := [lit "INFO hello", lit "DEBUG skip"]
            scanErr := some { Error := lit "bufio.Scanner: token too long" } } ∧
    (GetLogContent sampleBrokenFS sampleWork (lit "INFO")).1
        = some (lit "bufio.Scanner: token too long") :=
  ⟨if_pos rfl,
    getLogContent_scan_failure sampleBrokenFS sampleWork (lit "INFO")
      [lit "INFO hello", lit "DEBUG skip"] { Error := lit "bufio.Scanner: token too long" }
      (if_pos rfl)⟩

/-! ## File names -/

/-- The byte of a decimal digit has the code `48 + k`. -/
theorem digit_toNat (k : Nat) (hk : k < 10) : (UInt8.ofNat (48 + k)).toNat = 48 + k := by
  apply UInt8.toNat_ofNat_of_lt
  show 48 + k < 256
  omega

/-- A decimal digit is not a slash. -/
theorem digit_ne_slash (k : Nat) (hk : k < 10) : UInt8.ofNat (48 + k) ≠ 47 := by
  intro h
  have h1 := congrArg UInt8.toNat h
  rw [digit_toNat k hk] at h1
  have h2 : (47 : UInt8).toNat = 47 := by decide
  omega

/-- The digit loop writes, in front of the buffer, digits whose value is `u`. -/
theorem fmtUintLoop_value :
    ∀ (fuel u : Nat) (acc : GoString), u ≤ fuel →
      (fmtUintLoop fuel u acc).foldl (fun n b => n * 10 + (b.toNat - 48)) 0 =
        acc.foldl (fun n b => n * 10 + (b.toNat - 48)) u := by
  intro fuel
  induction fuel with
  | zero =>
    intro u acc hu
    have hu0 : u = 0 := by omega
    subst hu0
    have hk : 0 % 10 < 10 := by decide
    simp only [fmtUintLoop, List.foldl_cons, digit_toNat _ hk]
  | succ fuel ih =>
    intro u acc hu
    unfold fmtUintLoop
    split
    · rename_i h10
      rw [ih (u / 10) _ (by omega)]
      have hk : u - u / 10 * 10 < 10 := by omega
      simp only [List.foldl_cons, digit_toNat _ hk]
      congr 1
      omega
    · rename_i h10
      have hk : u < 10 := by omega
      simp only [List.foldl_cons, digit_toNat _ hk]
      congr 1
      omega

/-- Reading the decimal text of `u` gives `u` back. -/
theorem decValue_fmtUint (u : Nat) : decValue (fmtUint u) = u := by
  unfold decValue fmtUint
  rw [fmtUintLoop_value (u + 1) u [] (Nat.le_succ u)]
  rfl

/-- Different numbers have different decimal texts. -/
theorem fmtUint_injective (a b : Nat) (h : fmtUint a = fmtUint b) : a = b := by
  have := congrArg decValue h
  rwa [decValue_fmtUint, decValue_fmtUint] at this

/-- The digit loop writes no slash. -/
theorem fmtUintLoop_slashFree :
    ∀ (fuel u : Nat) (acc : GoString), (47 : UInt8) ∉ acc → (47 : UInt8) ∉ fmtUintLoop fuel u acc := by
  intro fuel
  induction fuel with
  | zero =>
    intro u acc hacc
    have hk : u % 10 < 10 := Nat.mod_lt _ (by decide)
    simp only [fmtUintLoop, List.mem_cons, not_or]
    exact ⟨fun h => digit_ne_slash _ hk h.symm, hacc⟩
  | succ fuel ih =>
    intro u acc hacc
    unfold fmtUintLoop
    split
    · have hk : u - u / 10 * 10 < 10 := by omega
      apply ih
      simp only [List.mem_cons, not_or]
      exact ⟨fun h => digit_ne_slash _ hk h.symm, hacc⟩
    · rename_i h10
      have hk : u < 10 := by omega
      simp only [List.mem_cons, not_or]
      exact ⟨fun h => digit_ne_slash _ hk h.symm, hacc⟩

/-- A decimal text holds no slash. -/
theorem fmtUint_slashFree (u : Nat) : (47 : UInt8) ∉ fmtUint u :=
  fmtUintLoop_slashFree (u + 1) u [] (by simp)

/-- A zero-padded decimal field holds no slash. -/
theorem appendInt_slashFree (x width : Nat) : (47 : UInt8) ∉ appendInt x width := by
  unfold appendInt
  simp only [List.mem_append, not_or]
  refine ⟨?_, fmtUint_slashFree x⟩
  intro h
  have := List.eq_of_mem_replicate h
  exact absurd this (by decide)

/-- A time stamp in the layout `20060102_1504` holds no slash. -/
theorem format_slashFree (t : Time) : (47 : UInt8) ∉ t.Format := by
  unfold Time.Format
  have h : lit "_" = ([95] : GoString) := by decide
  simp only [List.mem_append, not_or, h, List.mem_singleton]
  exact ⟨⟨⟨⟨⟨appendInt_slashFree _ _, appendInt_slashFree _ _⟩, appendInt_slashFree _ _⟩,
    by decide⟩, appendInt_slashFree _ _⟩, appendInt_slashFree _ _⟩
/-- At the end of the path the loop of `Clean` returns its output buffer. -/
theorem cleanLoop_nil (rooted : Bool) (fuel : Nat) (rout : GoString) (dotdot : Nat) :
    cleanLoop rooted fuel [] rout dotdot = rout := by
  cases fuel <;> rfl

/-- Up to the first slash of a text that ends in a slash, a text appended behind is
not looked at. -/
theorem takeWhile_dropWhile_endsSlash (e : GoString) :
    ∀ d : GoString, d.getLast? = some 47 →
      (d ++ e).takeWhile (fun b => b != 47) = d.takeWhile (fun b => b != 47) ∧
      (d ++ e).dropWhile (fun b => b != 47) = d.dropWhile (fun b => b != 47) ++ e ∧
      (d.dropWhile (fun b => b != 47)).getLast? = some 47 := by
  intro d
  induction d with
  | nil => intro h; simp at h
  | cons a d ih =>
    intro h
    by_cases ha : a = 47
    · subst ha
      simp [h]
    · have hd : d.getLast? = some 47 := by
        cases d with
        | nil =>
          simp at h
          exact absurd h ha
        | cons b d => rwa [List.getLast?_cons_cons] at h
      have ih3 := ih hd
      have hp : (a != 47) = true := by simpa using ha
      simp only [List.cons_append, List.takeWhile_cons, List.dropWhile_cons, hp, ↓reduceIte]
      exact ⟨by rw [ih3.1], ih3.2.1, ih3.2.2⟩

/-- One round of the loop of `Clean` inside a part of the path that ends in a slash:
the round neither reads past that part nor depends on what follows it. -/
theorem cleanLoop_step (rooted : Bool) (c : UInt8) (d : GoString)
    (hd : (c :: d).getLast? = some 47) (rout : GoString) (dotdot : Nat) :
    ∃ (d2 rout2 : GoString) (dotdot2 : Nat),
      d2.length ≤ d.length ∧ (d2 = [] ∨ d2.getLast? = some 47) ∧
      ∀ (e : GoString) (fuel : Nat),
        cleanLoop rooted (fuel + 1) (c :: d ++ e) rout dotdot =
          cleanLoop rooted fuel (d2 ++ e) rout2 dotdot2 := by
  by_cases hc : c = 47
  · refine ⟨d, rout, dotdot, le_refl _, ?_, ?_⟩
    · cases d with
      | nil => exact Or.inl rfl
      | cons x d => exact Or.inr (by rwa [List.getLast?_cons_cons] at hd)
    · intro e fuel
      simp [cleanLoop, hc]
  · cases d with
    | nil =>
      simp at hd
      exact absurd hd hc
    | cons x d =>
      rw [List.getLast?_cons_cons] at hd
      by_cases h2 : c = 46 ∧ x = 47
      · refine ⟨x :: d, rout, dotdot, le_refl _, Or.inr hd, ?_⟩
        intro e fuel
        simp [cleanLoop, h2.1, h2.2]
      · by_cases h3 : c = 46 ∧ x = 46 ∧ d.head? = some 47
        · obtain ⟨hc46, hx46, hy⟩ := h3
          cases d with
          | nil => simp at hy
          | cons y d =>
            have hy47 : y = 47 := by simpa using hy
            have hd2 : (y :: d).getLast? = some 47 := by
              subst hx46
              rwa [List.getLast?_cons_cons] at hd
            subst hc46 hx46 hy47
            by_cases hb : dotdot < rout.length
            · refine ⟨47 :: d, backtrack dotdot rout, dotdot, by simp, Or.inr hd2, ?_⟩
              intro e fuel
              simp [cleanLoop, hb]
            · by_cases hr : rooted = false
              · refine ⟨47 :: d, 46 :: 46 :: (if 0 < rout.length then 47 :: rout else rout),
                  (if 0 < rout.length then 47 :: rout else rout).length + 2, by simp,
                  Or.inr hd2, ?_⟩
                intro e fuel
                simp [cleanLoop, hb, hr]
              · refine ⟨47 :: d, rout, dotdot, by simp, Or.inr hd2, ?_⟩
                intro e fuel
                simp [cleanLoop, hb, hr]
        · have hlast : (c :: x :: d).getLast? = some 47 := by
            rwa [List.getLast?_cons_cons]
          refine ⟨(c :: x :: d).dropWhile (fun b => b != 47),
            ((c :: x :: d).takeWhile (fun b => b != 47)).reverse ++
              (if (rooted = true ∧ rout.length ≠ 1) ∨ (rooted = false ∧ rout.length ≠ 0) then
                47 :: rout else rout),
            dotdot, ?_, Or.inr (takeWhile_dropWhile_endsSlash [] _ hlast).2.2, ?_⟩
          · have hp : (c != 47) = true := by simpa using hc
            rw [List.dropWhile_cons, if_pos hp]
            exact (List.dropWhile_sublist _).length_le
          · intro e fuel
            have hsplit := takeWhile_dropWhile_endsSlash e _ hlast
            have hcond2 : ¬ (c = 46 ∧ (x :: (d ++ e) = [] ∨ (x :: (d ++ e)).head? = some 47)) := by
              intro h
              apply h2
              refine ⟨h.1, ?_⟩
              simpa using h.2
            have hcond3 : ¬ (c = 46 ∧ (x :: (d ++ e)).head? = some 46 ∧
                ((x :: (d ++ e)).tail = [] ∨ (x :: (d ++ e)).tail.head? = some 47)) := by
              intro h
              apply h3
              obtain ⟨h1, hx, ht⟩ := h
              have hx46 : x = 46 := by simpa using hx
              refine ⟨h1, hx46, ?_⟩
              cases d with
              | nil =>
                subst hx46
                simp at hd
              | cons y d =>
                simpa using ht
            rw [List.cons_append, List.cons_append, cleanLoop]
            rw [if_neg hc, if_neg hcond2, if_neg hcond3]
            simp only []
            rw [← List.cons_append, ← List.cons_append, hsplit.1, hsplit.2.1]

/-- A last path element that is neither empty nor `.` nor `..` is copied to the
output as it stands, after whatever the part before it has produced. -/
theorem cleanLoop_final (rooted : Bool) :
    ∀ (n : Nat) (d : GoString), d.length ≤ n → (d = [] ∨ d.getLast? = some 47) →
      ∀ (rout : GoString) (dotdot : Nat), ∃ rout2 : GoString,
        ∀ (e : GoString) (fuel : Nat), e ≠ [] → (47 : UInt8) ∉ e → e ≠ [46] → e ≠ [46, 46] →
          (d ++ e).length < fuel →
          cleanLoop rooted fuel (d ++ e) rout dotdot = e.reverse ++ rout2 := by
  intro n
  induction n with
  | zero =>
    intro d hlen _ rout dotdot
    have hd : d = [] := List.length_eq_zero.1 (Nat.le_zero.1 hlen)
    subst hd
    refine ⟨if (rooted = true ∧ rout.length ≠ 1) ∨ (rooted = false ∧ rout.length ≠ 0) then
      47 :: rout else rout, ?_⟩
    intro e fuel hne hslash hdot hdotdot hfuel
    cases fuel with
    | zero => omega
    | succ fuel =>
      cases e with
      | nil => exact absurd rfl hne
      | cons c rest =>
        have hc : c ≠ 47 := fun h => hslash (by simp [h])
        have hrest : (47 : UInt8) ∉ rest := fun h => hslash (List.mem_cons_of_mem _ h)
        have hcond2 : ¬ (c = 46 ∧ (rest = [] ∨ rest.head? = some 47)) := by
          rintro ⟨h1, h2 | h2⟩
          · exact hdot (by rw [h1, h2])
          · exact hrest (List.mem_of_mem_head? h2)
        have hcond3 : ¬ (c = 46 ∧ rest.head? = some 46 ∧
            (rest.tail = [] ∨ rest.tail.head? = some 47)) := by
          rintro ⟨h1, h2, h3⟩
          cases rest with
          | nil => simp at h2
          | cons x rest2 =>
            have hx : x = 46 := by simpa using h2
            rcases h3 with h3 | h3
            · have hr2 : rest2 = [] := by simpa using h3
              exact hdotdot (by rw [h1, hx, hr2])
            · have hmem : (47 : UInt8) ∈ rest2 := List.mem_of_mem_head? (by simpa using h3)
              exact hrest (List.mem_cons_of_mem _ hmem)
        have hall : ∀ b ∈ c :: rest, (b != 47) = true := by
          intro b hb
          have : b ≠ 47 := fun h => hslash (h ▸ hb)
          simpa using this
        rw [List.nil_append, cleanLoop, if_neg hc, if_neg hcond2, if_neg hcond3]
        simp only []
        rw [List.takeWhile_eq_self_iff.2 hall, List.dropWhile_eq_nil_iff.2 hall, cleanLoop_nil]
  | succ n ih =>
    intro d hlen hd rout dotdot
    cases d with
    | nil => exact ih [] (Nat.zero_le _) (Or.inl rfl) rout dotdot
    | cons c d =>
      have hlast : (c :: d).getLast? = some 47 := by
        rcases hd with hd | hd
        · exact absurd hd (List.cons_ne_nil _ _)
        · exact hd
      obtain ⟨d2, rout2, dotdot2, hlen2, hd2, hstep⟩ := cleanLoop_step rooted c d hlast rout dotdot
      have hle : d2.length ≤ n := by
        have : d.length ≤ n := by simpa using hlen
        omega
      obtain ⟨rout3, hfinal⟩ := ih d2 hle hd2 rout2 dotdot2
      refine ⟨rout3, ?_⟩
      intro e fuel hne hslash hdot hdotdot hfuel
      cases fuel with
      | zero => omega
      | succ fuel =>
        rw [hstep e fuel]
        apply hfinal e fuel hne hslash hdot hdotdot
        simp only [List.length_append, List.length_cons] at hfuel ⊢
        omega

/-- Every text splits into a part that is empty or ends in a slash and a rest
without a slash. -/
theorem split_last_slash (y : GoString) :
    ∃ d c : GoString, y = d ++ c ∧ (d = [] ∨ d.getLast? = some 47) ∧ (47 : UInt8) ∉ c := by
  induction y with
  | nil => exact ⟨[], [], rfl, Or.inl rfl, by simp⟩
  | cons a y ih =>
    obtain ⟨d, c, hy, hd, hc⟩ := ih
    cases d with
    | nil =>
      by_cases ha : a = 47
      · exact ⟨[47], c, by simp [hy, ha], Or.inr rfl, hc⟩
      · refine ⟨[], a :: c, by simp [hy], Or.inl rfl, ?_⟩
        simp only [List.mem_cons, not_or]
        exact ⟨fun h => ha h.symm, hc⟩
    | cons b d =>
      refine ⟨a :: b :: d, c, by simp [hy], Or.inr ?_, hc⟩
      rw [List.getLast?_cons_cons]
      rcases hd with hd | hd
      · exact absurd hd (List.cons_ne_nil _ _)
      · exact hd

/-- Go `path.Clean` keeps a slash-free tail that starts with an underscore: what precedes
the tail in the result depends only on what precedes it in the path. -/
theorem clean_append_tail (y : GoString) :
    ∃ z : GoString, ∀ rest : GoString, rest.head? = some 95 → (47 : UInt8) ∉ rest →
      Clean (y ++ rest) = z ++ rest := by
  obtain ⟨d, c, hy, hd, hc⟩ := split_last_slash y
  have hreal : ∀ rest : GoString, rest.head? = some 95 → (47 : UInt8) ∉ rest →
      c ++ rest ≠ [] ∧ (47 : UInt8) ∉ c ++ rest ∧ c ++ rest ≠ [46] ∧ c ++ rest ≠ [46, 46] := by
    intro rest hhead hslash
    have hmem : (95 : UInt8) ∈ c ++ rest :=
      List.mem_append_right _ (List.mem_of_mem_head? hhead)
    refine ⟨?_, ?_, ?_, ?_⟩
    · intro h
      rw [h] at hmem
      simp at hmem
    · simp only [List.mem_append, not_or]
      exact ⟨hc, hslash⟩
    · intro h
      rw [h] at hmem
      revert hmem
      decide
    · intro h
      rw [h] at hmem
      revert hmem
      decide
  subst hy
  by_cases hroot : d.head? = some 47
  · cases d with
    | nil => simp at hroot
    | cons a d1 =>
      have ha : a = 47 := by simpa using hroot
      subst ha
      have hd1 : d1 = [] ∨ d1.getLast? = some 47 := by
        cases d1 with
        | nil => exact Or.inl rfl
        | cons b d2 =>
          rcases hd with hd | hd
          · exact absurd hd (List.cons_ne_nil _ _)
          · exact Or.inr (by rwa [List.getLast?_cons_cons] at hd)
      obtain ⟨rout2, hfinal⟩ := cleanLoop_final true d1.length d1 (le_refl _) hd1 [47] 1
      refine ⟨rout2.reverse ++ c, ?_⟩
      intro rest hhead hslash
      obtain ⟨h1, h2, h3, h4⟩ := hreal rest hhead hslash
      have hrun := hfinal (c ++ rest) ((d1 ++ (c ++ rest)).length + 1) h1 h2 h3 h4
        (Nat.lt_succ_self _)
      have hpath : (47 :: d1 ++ c) ++ rest = 47 :: (d1 ++ (c ++ rest)) := by simp
      rw [hpath]
      simp only [Clean, if_true]
      rw [hrun]
      have hlen : ((c ++ rest).reverse ++ rout2).length ≠ 0 := by
        intro h
        rw [List.length_eq_zero, List.append_eq_nil] at h
        exact h1 (List.reverse_eq_nil_iff.1 h.1)
      rw [if_neg hlen]
      simp
  · obtain ⟨rout2, hfinal⟩ := cleanLoop_final false d.length d (le_refl _) hd [] 0
    refine ⟨rout2.reverse ++ c, ?_⟩
    intro rest hhead hslash
    obtain ⟨h1, h2, h3, h4⟩ := hreal rest hhead hslash
    rw [List.append_assoc]
    cases hxe : d ++ (c ++ rest) with
    | nil => exact absurd (List.append_eq_nil.1 hxe).2 h1
    | cons a t =>
      have ha : a ≠ 47 := by
        intro h47
        subst h47
        cases d with
        | nil =>
          rw [List.nil_append] at hxe
          exact h2 (by rw [hxe]; simp)
        | cons b d1 =>
          rw [List.cons_append] at hxe
          have hb : b = 47 := (List.cons.inj hxe).1
          exact hroot (by simp [hb])
      have hrun := hfinal (c ++ rest) (t.length + 2) h1 h2 h3 h4 (by rw [hxe]; simp)
      rw [hxe] at hrun
      simp only [Clean, if_neg ha]
      rw [hrun]
      have hlen : ((c ++ rest).reverse ++ rout2).length ≠ 0 := by
        intro h
        rw [List.length_eq_zero, List.append_eq_nil] at h
        exact h1 (List.reverse_eq_nil_iff.1 h.1)
      rw [if_neg hlen]
      simp

/-- Go `path.Join` of a directory and a non-empty file name is `Clean` of the two with a
slash between them, or of the file name alone under the empty directory. -/
theorem join_dir_file (output file : GoString) (hf : file ≠ []) :
    Join [output, file] = Clean ((if output = [] then [] else output ++ [47]) ++ file) := by
  have hlen : 0 < file.length := List.length_pos.2 hf
  by_cases ho : output = []
  · subst ho
    have hsum : ¬ (0 + (file.length + 0) = 0) := by omega
    simp [Join, joinBuf, hf, hsum]
  · have hol : 0 < output.length := List.length_pos.2 ho
    have hsum : ¬ (output.length + (file.length + 0) = 0) := by omega
    simp [Join, joinBuf, ho, hol, hsum]

/-- The file name of a work item under `Join`: a part fixed by the directory and the
snake-cased name, then `_`, the identifier, `_`, the time stamp and the suffix. -/
theorem join_sprintfName (output snake : GoString) :
    ∃ z : GoString, ∀ (id : Nat) (t : Time) (suffix : GoString), (47 : UInt8) ∉ suffix →
      Join [output, sprintfName snake id t.Format suffix] =
        z ++ (95 :: (fmtUint id ++ (95 :: (t.Format ++ suffix)))) := by
  obtain ⟨z, hz⟩ := clean_append_tail ((if output = [] then [] else output ++ [47]) ++ snake)
  refine ⟨z, ?_⟩
  intro id t suffix hsuffix
  have hu : lit "_" = ([95] : GoString) := by decide
  have hname : sprintfName snake id t.Format suffix =
      snake ++ (95 :: (fmtUint id ++ (95 :: (t.Format ++ suffix)))) := by
    simp [sprintfName, hu]
  have hne : sprintfName snake id t.Format suffix ≠ [] := by
    rw [hname]
    simp
  rw [join_dir_file output _ hne, hname, ← List.append_assoc]
  apply hz
  · rfl
  · have h1 := fmtUint_slashFree id
    have h2 := format_slashFree t
    simp only [List.mem_cons, List.mem_append, not_or]
    exact ⟨by decide, h1, by decide, h2, hsuffix⟩

/-- C10: two work items created with the same name and the same output directory,
with the same formatted time stamps but different IDs, have different `ArgFilename`
values and different `LogFilename` values; within each item `ArgFilename` differs
from `LogFilename`. -/
theorem filenames_differ_by_id (ToSnake : GoString → GoString) (name output : GoString)
    (workID1 workID2 : Nat) (nowArg1 nowLog1 nowArg2 nowLog2 : Time)
    (script1 payload1 script2 payload2 : GoString) (args1 args2 : List GoString)
    (timeout1 timeout2 : Int)
    (hid :
      (NewWorkRequest ToSnake workID1 nowArg1 nowLog1 name script1 payload1 output args1
          timeout1).1.ID ≠
        (NewWorkRequest ToSnake workID2 nowArg2 nowLog2 name script2 payload2 output args2
          timeout2).1.ID)
    (hArg : nowArg1.Format = nowArg2.Format) (hLog : nowLog1.Format = nowLog2.Format) :
    (NewWorkRequest ToSnake workID1 nowArg1 nowLog1 name script1 payload1 output args1
        timeout1).1.ArgFilename ≠
      (NewWorkRequest ToSnake workID2 nowArg2 nowLog2 name script2 payload2 output args2
        timeout2).1.ArgFilename ∧
    (NewWorkRequest ToSnake workID1 nowArg1 nowLog1 name script1 payload1 output args1
        timeout1).1.LogFilename ≠
      (NewWorkRequest ToSnake workID2 nowArg2 nowLog2 name script2 payload2 output args2
        timeout2).1.LogFilename ∧
    (NewWorkRequest ToSnake workID1 nowArg1 nowLog1 name script1 payload1 output args1
        timeout1).1.ArgFilename ≠
      (NewWorkRequest ToSnake workID1 nowArg1 nowLog1 name script1 payload1 output args1
        timeout1).1.LogFilename ∧
    (NewWorkRequest ToSnake workID2 nowArg2 nowLog2 name script2 payload2 output args2
        timeout2).1.ArgFilename ≠
      (NewWorkRequest ToSnake workID2 nowArg2 nowLog2 name script2 payload2 output args2
        timeout2).1.LogFilename := by
  obtain ⟨z, hz⟩ := join_sprintfName output (ToSnake name)
  have harg : (47 : UInt8) ∉ lit ".arg" := by decide
  have htxt : (47 : UInt8) ∉ lit ".txt" := by decide
  have hid2 : AddUint64 workID1 ≠ AddUint64 workID2 := hid
  have hsuffix : ∀ (i : Nat) (s1 s2 : GoString),
      z ++ (95 :: (fmtUint i ++ (95 :: (s1 ++ lit ".arg")))) ≠
        z ++ (95 :: (fmtUint i ++ (95 :: (s2 ++ lit ".txt")))) := by
    intro i s1 s2 h
    have h1 := List.append_cancel_left h
    have h2 := List.append_cancel_left (List.cons.inj h1).2
    have h3 := congrArg List.getLast? (List.cons.inj h2).2
    have ha : lit ".arg" = ([46, 97, 114, 103] : GoString) := by decide
    have ht : lit ".txt" = ([46, 116, 120, 116] : GoString) := by decide
    rw [ha, ht] at h3
    simp at h3
  have hids : ∀ (s suffix : GoString),
      z ++ (95 :: (fmtUint (AddUint64 workID1) ++ (95 :: (s ++ suffix)))) ≠
        z ++ (95 :: (fmtUint (AddUint64 workID2) ++ (95 :: (s ++ suffix)))) := by
    intro s suffix h
    have h1 := List.append_cancel_left h
    have h2 := List.append_cancel_right (List.cons.inj h1).2
    exact hid2 (fmtUint_injective _ _ h2)
  refine ⟨?_, ?_, ?_, ?_⟩
  · show Join [output, sprintfName (ToSnake name) (AddUint64 workID1) nowArg1.Format
        (lit ".arg")] ≠
      Join [output, sprintfName (ToSnake name) (AddUint64 workID2) nowArg2.Format (lit ".arg")]
    rw [hz _ _ _ harg, hz _ _ _ harg, hArg]
    exact hids _ _
  · show Join [output, sprintfName (ToSnake name) (AddUint64 workID1) nowLog1.Format
        (lit ".txt")] ≠
      Join [output, sprintfName (ToSnake name) (AddUint64 workID2) nowLog2.Format (lit ".txt")]
    rw [hz _ _ _ htxt, hz _ _ _ htxt, hLog]
    exact hids _ _
  · show Join [output, sprintfName (ToSnake name) (AddUint64 workID1) nowArg1.Format
        (lit ".arg")] ≠
      Join [output, sprintfName (ToSnake name) (AddUint64 workID1) nowLog1.Format (lit ".txt")]
    rw [hz _ _ _ harg, hz _ _ _ htxt]
    exact hsuffix _ _ _
  · show Join [output, sprintfName (ToSnake name) (AddUint64 workID2) nowArg2.Format
        (lit ".arg")] ≠
      Join [output, sprintfName (ToSnake name) (AddUint64 workID2) nowLog2.Format (lit ".txt")]
    rw [hz _ _ _ harg, hz _ _ _ htxt]
    exact hsuffix _ _ _

/-- C10 at the first two work items of a process, created for the same hook in the
same minute. -/
theorem filenames_differ_by_id_witness :
    sampleWork.ID ≠ sampleWorkNext.ID ∧
    sampleTime.Format = sampleTime.Format ∧
    sampleWork.ArgFilename = lit "/tmp/echo_1_20240307_0905.arg" ∧
    sampleWorkNext.ArgFilename = lit "/tmp/echo_2_20240307_0905.arg" ∧
    sampleWork.ArgFilename ≠ sampleWorkNext.ArgFilename ∧
    sampleWork.LogFilename ≠ sampleWorkNext.LogFilename ∧
    sampleWork.ArgFilename ≠ sampleWork.LogFilename ∧
    sampleWorkNext.ArgFilename ≠ sampleWorkNext.LogFilename :=
  ⟨by decide, rfl, by decide, by decide,
    filenames_differ_by_id id (lit "echo") (lit "/tmp") 0 1 sampleTime sampleTime sampleTime
      sampleTime (lit "echo.sh") (lit "x=1") (lit "echo.sh") (lit "x=2") [lit "a"] [lit "b"]
      10 10 (by decide) rfl rfl⟩

/-! ## Construction -/

/-- The identifiers of the work items of a sequence of `NewWorkRequest` calls: the
`i`-th call after the counter value `workID` gets `workID + i + 1` modulo `2 ^ 64`. -/
theorem createAll_ids (ToSnake : GoString → GoString) :
    ∀ (cs : List Creation) (workID : Nat),
      (createAll ToSnake workID cs).map WorkRequest.ID =
        (List.range cs.length).map (fun i => (workID + i + 1) % 2 ^ 64) := by
  intro cs
  induction cs with
  | nil => intro workID; rfl
  | cons c cs ih =>
    intro workID
    have hid : (NewWorkRequest ToSnake workID c.now1 c.now2 c.name c.script c.payload c.output
        c.args c.timeout).1.ID = (workID + 1) % 2 ^ 64 := rfl
    have hcnt : (NewWorkRequest ToSnake workID c.now1 c.now2 c.name c.script c.payload c.output
        c.args c.timeout).2 = (workID + 1) % 2 ^ 64 := rfl
    rw [createAll, List.map_cons, hid, hcnt, ih, List.length_cons, List.range_succ_eq_map,
      List.map_cons, List.map_map]
    congr 1
    apply List.map_congr_left
    intro i _
    show ((workID + 1) % 2 ^ 64 + i + 1) % 2 ^ 64 = (workID + (i + 1) + 1) % 2 ^ 64
    omega

/-- A sequence of calls returns one work item per call. -/
theorem createAll_length (ToSnake : GoString → GoString) (cs : List Creation) (workID : Nat) :
    (createAll ToSnake workID cs).length = cs.length := by
  have h := congrArg List.length (createAll_ids ToSnake cs workID)
  simpa using h

/-- C11, as the claim states it, fails on a sequence of `2 ^ 64 + 1` calls: the
counter wraps, call `2 ^ 64` gets the identifier 0 after `2 ^ 64 - 1`, and call
`2 ^ 64 + 1` gets the identifier 1 of the first call again. -/
theorem ids_unique_counterexample :
    ((createAll id 0 (List.replicate (2 ^ 64 + 1) sampleCreation)).map WorkRequest.ID)[0]?
      = some 1 ∧
    ((createAll id 0 (List.replicate (2 ^ 64 + 1) sampleCreation)).map
      WorkRequest.ID)[2 ^ 64 - 2]? = some (2 ^ 64 - 1) ∧
    ((createAll id 0 (List.replicate (2 ^ 64 + 1) sampleCreation)).map
      WorkRequest.ID)[2 ^ 64 - 1]? = some 0 ∧
    ((createAll id 0 (List.replicate (2 ^ 64 + 1) sampleCreation)).map WorkRequest.ID)[2 ^ 64]?
      = some 1 ∧
    ¬ ((createAll id 0 (List.replicate (2 ^ 64 + 1) sampleCreation)).map
      WorkRequest.ID).Nodup := by
  have hfirst :
      ((createAll id 0 (List.replicate (2 ^ 64 + 1) sampleCreation)).map WorkRequest.ID)[0]?
        = some 1 := by
    rw [createAll_ids, List.length_replicate, List.getElem?_map,
      List.getElem?_range (by norm_num)]
    norm_num
  have hlast :
      ((createAll id 0 (List.replicate (2 ^ 64 + 1) sampleCreation)).map
        WorkRequest.ID)[2 ^ 64]? = some 1 := by
    rw [createAll_ids, List.length_replicate, List.getElem?_map,
      List.getElem?_range (by norm_num)]
    norm_num
  refine ⟨hfirst, ?_, ?_, hlast, ?_⟩
  · rw [createAll_ids, List.length_replicate, List.getElem?_map,
      List.getElem?_range (by norm_num)]
    norm_num
  · rw [createAll_ids, List.length_replicate, List.getElem?_map,
      List.getElem?_range (by norm_num)]
    norm_num
  · intro hnodup
    have hne := List.nodup_iff_getElem?_ne_getElem?.1 hnodup 0 (2 ^ 64) (by norm_num)
      (by rw [List.length_map, createAll_length, List.length_replicate]; norm_num)
    exact hne (hfirst.trans hlast.symm)

/-- C11, amended: starting from the zero-initialised counter, in any sequence of fewer
than `2 ^ 64` `NewWorkRequest` calls the first call yields ID 1, each call yields the
previous ID plus one, and no two created work items receive the same ID. -/
theorem ids_sequential_unique (ToSnake : GoString → GoString) (cs : List Creation)
    (h : cs.length < 2 ^ 64) :
    (∀ w ∈ (createAll ToSnake 0 cs).head?, w.ID = 1) ∧
    (∀ (i : Nat) (hi : i + 1 < (createAll ToSnake 0 cs).length),
      (createAll ToSnake 0 cs)[i + 1].ID = (createAll ToSnake 0 cs)[i].ID + 1) ∧
    (∀ (i : Nat) (hi : i < (createAll ToSnake 0 cs).length),
      (createAll ToSnake 0 cs)[i].ID = i + 1) ∧
    ((createAll ToSnake 0 cs).map WorkRequest.ID).Nodup := by
  have hlen := createAll_length ToSnake cs 0
  have hids := createAll_ids ToSnake cs 0
  have hget : ∀ (i : Nat) (hi : i < (createAll ToSnake 0 cs).length),
      (createAll ToSnake 0 cs)[i].ID = i + 1 := by
    intro i hi
    have h1 : ((createAll ToSnake 0 cs).map WorkRequest.ID)[i]? =
        ((List.range cs.length).map (fun i => (0 + i + 1) % 2 ^ 64))[i]? := by rw [hids]
    have hi2 : i < cs.length := hlen ▸ hi
    rw [List.getElem?_map, List.getElem?_map, List.getElem?_range hi2,
      List.getElem?_eq_getElem hi] at h1
    simp only [Option.map_some', Option.some.injEq] at h1
    rw [h1]
    omega
  refine ⟨?_, ?_, hget, ?_⟩
  · intro w hw
    cases hcs : createAll ToSnake 0 cs with
    | nil => rw [hcs] at hw; simp at hw
    | cons w0 ws =>
      rw [hcs] at hw
      simp only [List.head?_cons, Option.mem_def, Option.some.injEq] at hw
      subst hw
      have h0 := hget 0 (by rw [hcs]; simp)
      simpa [hcs] using h0
  · intro i hi
    rw [hget (i + 1) hi, hget i (by omega)]
  · rw [hids]
    apply List.Nodup.map_on _ (List.nodup_range _)
    intro a ha b hb hab
    rw [List.mem_range] at ha hb
    simp only [Nat.zero_add] at hab
    omega

/-- C11, amended, at two calls from the zero counter: the identifiers are 1 and 2. -/
theorem ids_sequential_unique_witness :
    [sampleCreation, sampleCreation].length < 2 ^ 64 ∧
    (createAll id 0 [sampleCreation, sampleCreation]).map WorkRequest.ID = [1, 2] ∧
    ((createAll id 0 [sampleCreation, sampleCreation]).map WorkRequest.ID).Nodup :=
  ⟨by decide, by decide,
    (ids_sequential_unique id [sampleCreation, sampleCreation] (by decide)).2.2.2⟩

/-- C12 fails on the code when the minute changes between the two `time.Now()` calls
of `NewWorkRequest`: the `.arg` name carries the stamp of 09:05 and the `.txt` name
the stamp of 09:06, so the two paths differ in more than their suffix. -/
theorem filenames_stamp_split :
    sampleSplitWork.ArgFilename = lit "/tmp/echo_1_20240307_0905.arg" ∧
    sampleSplitWork.LogFilename = lit "/tmp/echo_1_20240307_0906.txt" ∧
    sampleSplitWork.ArgFilename.take (sampleSplitWork.ArgFilename.length - 4) ≠
      sampleSplitWork.LogFilename.take (sampleSplitWork.LogFilename.length - 4) := by
  decide

/-- C13: for all inputs `NewWorkRequest` returns a work item with `Status = Idle`,
`Err = nil`, and `Name`, `Script`, `Payload`, `Args` and `Timeout` equal to the given
arguments; being a total function of its inputs, it has no failing case. -/
theorem newWorkRequest_fields (ToSnake : GoString → GoString) (workID : Nat)
    (now1 now2 : Time) (name script payload output : GoString) (args : List GoString)
    (timeout : Int) :
    (NewWorkRequest ToSnake workID now1 now2 name script payload output args timeout).1.Status
        = WorkStatus.Idle ∧
    (NewWorkRequest ToSnake workID now1 now2 name script payload output args timeout).1.Err
        = none ∧
    (NewWorkRequest ToSnake workID now1 now2 name script payload output args timeout).1.Name
        = name ∧
    (NewWorkRequest ToSnake workID now1 now2 name script payload output args timeout).1.Script
        = script ∧
    (NewWorkRequest ToSnake workID now1 now2 name script payload output args timeout).1.Payload
        = payload ∧
    (NewWorkRequest ToSnake workID now1 now2 name script payload output args timeout).1.Args
        = args ∧
    (NewWorkRequest ToSnake workID now1 now2 name script payload output args timeout).1.Timeout
        = timeout :=
  ⟨rfl, rfl, rfl, rfl, rfl, rfl, rfl⟩

/-! ## Termination, continued -/

/-- C14: for every work item, `IsTerminated` returns true if and only if `Status` is
`Success` or `Error`, so false for `Idle` and `Running`, and it leaves every field of
the work item unchanged. -/
theorem isTerminated_iff_terminal (wr : WorkRequest) :
    ((IsTerminated wr).1 = true ↔
      wr.Status = WorkStatus.Success ∨ wr.Status = WorkStatus.Error) ∧
    (IsTerminated { wr with Status := WorkStatus.Idle }).1 = false ∧
    (IsTerminated { wr with Status := WorkStatus.Running }).1 = false ∧
    (IsTerminated { wr with Status := WorkStatus.Success }).1 = true ∧
    (IsTerminated { wr with Status := WorkStatus.Error }).1 = true ∧
    (IsTerminated wr).2 = wr := by
  refine ⟨?_, rfl, rfl, rfl, rfl, rfl⟩
  simp [IsTerminated]

/-- C15, as the claim states it, fails: on a fresh work item `Terminate(e)` followed by
`Terminate(nil)` leaves `(Success, e)`, while `Terminate(nil)` alone leaves
`(Success, nil)`. -/
theorem double_terminate_counterexample :
    ((terminateAll sampleWork [some sampleErr, none]).Status,
        (terminateAll sampleWork [some sampleErr, none]).Err) = (WorkStatus.Success, some sampleErr) ∧
    ((terminateAll sampleWork [none]).Status, (terminateAll sampleWork [none]).Err)
        = (WorkStatus.Success, none) ∧
    ((terminateAll sampleWork [some sampleErr, none]).Status,
        (terminateAll sampleWork [some sampleErr, none]).Err) ≠
      ((terminateAll sampleWork [none]).Status, (terminateAll sampleWork [none]).Err) := by
  decide

/-- C15, amended: on a freshly constructed work item and for all arguments `e1`, `e2`,
the `Status` after `Terminate(e1)` followed by `Terminate(e2)` equals the `Status`
after `Terminate(e2)` alone; the `Err` fields agree as well when `e2` is non-nil or
`e1` is nil; when `e1` is non-nil and `e2` is nil, `Err` stays `e1`. -/
theorem double_terminate_overwrites (ToSnake : GoString → GoString) (workID : Nat)
    (now1 now2 : Time) (name script payload output : GoString) (args : List GoString)
    (timeout : Int) (e1 e2 : Option GoError) :
    (terminateAll
        (NewWorkRequest ToSnake workID now1 now2 name script payload output args timeout).1
        [e1, e2]).Status =
      (terminateAll
        (NewWorkRequest ToSnake workID now1 now2 name script payload output args timeout).1
        [e2]).Status ∧
    (e2 ≠ none ∨ e1 = none →
      (terminateAll
          (NewWorkRequest ToSnake workID now1 now2 name script payload output args timeout).1
          [e1, e2]).Err =
        (terminateAll
          (NewWorkRequest ToSnake workID now1 now2 name script payload output args timeout).1
          [e2]).Err) ∧
    (e1 ≠ none → e2 = none →
      (terminateAll
          (NewWorkRequest ToSnake workID now1 now2 name script payload output args timeout).1
          [e1, e2]).Err = e1) := by
  cases e1 <;> cases e2 <;> simp [terminateAll, Terminate, NewWorkRequest]

/-- C15, amended, at a fresh work item terminated with nil and then with an error. -/
theorem double_terminate_overwrites_witness :
    (some sampleErr ≠ none ∨ (none : Option GoError) = none) ∧
    (terminateAll sampleWork [none, some sampleErr]).Err =
      (terminateAll sampleWork [some sampleErr]).Err :=
  ⟨by decide,
    (double_terminate_overwrites id 0 sampleTime sampleTime (lit "echo") (lit "echo.sh")
      (lit "x=1") (lit "/tmp") [lit "a"] 10 none (some sampleErr)).2.1 (by decide)⟩

/-- C16: `Terminate` changes only `Status` and `Err`: for every work item and every
argument, `ID`, `Name`, `Script`, `Payload`, `Args`, `Timeout`, `ArgFilename` and
`LogFilename` are after the call what they were before it. -/
theorem terminate_frame (wr : WorkRequest) (err : Option GoError) :
    (Terminate wr err).wr.ID = wr.ID ∧
    (Terminate wr err).wr.Name = wr.Name ∧
    (Terminate wr err).wr.Script = wr.Script ∧
    (Terminate wr err).wr.Payload = wr.Payload ∧
    (Terminate wr err).wr.Args = wr.Args ∧
    (Terminate wr err).wr.Timeout = wr.Timeout ∧
    (Terminate wr err).wr.ArgFilename = wr.ArgFilename ∧
    (Terminate wr err).wr.LogFilename = wr.LogFilename := by
  cases err <;> exact ⟨rfl, rfl, rfl, rfl, rfl, rfl, rfl, rfl⟩

/-! ## The log extractor, continued -/

/-- The filtered view of a log in two parts is the view of the first part followed
by the view of the second. -/
theorem filteredView_append (p : GoString) (L1 L2 : List GoString) :
    filteredView p (L1 ++ L2) = filteredView p L1 ++ filteredView p L2 := by
  simp [filteredView]

/-- Dropping leading spaces from a run of spaces followed by a text that does not
start with a space leaves that text. -/
theorem dropWhile_spaces_append (s r : GoString) (hs : ∀ b ∈ s, b = 32)
    (hr : r.head? ≠ some 32) :
    (s ++ r).dropWhile (fun b => b == 32) = r := by
  induction s with
  | nil =>
    cases r with
    | nil => rfl
    | cons c rest =>
      have hc : c ≠ 32 := fun h => hr (by simp [h])
      simp [List.dropWhile_cons, hc]
  | cons b s ih =>
    have hb : b = 32 := hs b (List.mem_cons_self b s)
    have hs2 : ∀ c ∈ s, c = 32 := fun c hc => hs c (List.mem_cons_of_mem _ hc)
    simp [List.dropWhile_cons, hb, ih hs2]

/-- The line `p ++ s ++ r`, with `s` all spaces and `r` not starting with a space,
contributes `r` and a newline to the view under `p`. -/
theorem filteredView_spaced_line (p s r : GoString) (hs : ∀ b ∈ s, b = 32)
    (hr : r.head? ≠ some 32) :
    filteredView p [p ++ s ++ r] = r ++ [10] := by
  have hp : p <+: p ++ s ++ r := by
    rw [List.append_assoc]
    exact List.prefix_append p (s ++ r)
  have hdrop : (p ++ s ++ r).drop p.length = s ++ r := by
    rw [List.append_assoc, List.drop_left]
  simp only [filteredView, List.filter_cons, hp, decide_True, if_true, List.filter_nil,
    List.map_cons, List.map_nil, List.flatten_cons, List.flatten_nil, List.append_nil, hdrop,
    dropWhile_spaces_append s r hs hr]

/-- C17: only space bytes are trimmed after the prefix. For a line `p ++ s ++ r` of a
readable log, `s` made of space bytes only and `r` empty or starting with another
byte (a tab, say), `GetLogContent(p)` emits for that line exactly `r` and a newline,
between the output of the lines before it and of the lines after it. -/
theorem getLogContent_trims_spaces_only (fs : FileSystem) (wr : WorkRequest)
    (p s r : GoString) (L1 L2 : List GoString)
    (hs : ∀ b ∈ s, b = 32) (hr : r.head? ≠ some 32)
    (h : fs wr.LogFilename = Except.ok { lines := L1 ++ [p ++ s ++ r] ++ L2, scanErr := none }) :
    (GetLogContent fs wr p).1 =
      some (filteredView p L1 ++ (r ++ lit "\n") ++ filteredView p L2) := by
  have hnl : lit "\n" = ([10] : GoString) := by decide
  rw [getLogContent_opened fs wr p _ none h, hnl]
  show some (filteredView p (L1 ++ [p ++ s ++ r] ++ L2)) = _
  rw [filteredView_append, filteredView_append, filteredView_spaced_line p s r hs hr]

/-- C17 at the line `INFO`, two spaces, a tab, `x y` and a trailing space: the tab,
the inner space and the trailing space are kept. -/
theorem getLogContent_trims_spaces_only_witness :
    (∀ b ∈ lit "  ", b = 32) ∧
    (lit "\tx y ").head? ≠ some 32 ∧
    sampleFSOf ([lit "INFO a"] ++ [lit "INFO" ++ lit "  " ++ lit "\tx y "] ++ [lit "DEBUG b"])
        sampleWork.LogFilename =
      Except.ok
        { lines := [lit "INFO a"] ++ [lit "INFO" ++ lit "  " ++ lit "\tx y "] ++ [lit "DEBUG b"]
          scanErr := none } ∧
    (GetLogContent
        (sampleFSOf
          ([lit "INFO a"] ++ [lit "INFO" ++ lit "  " ++ lit "\tx y "] ++ [lit "DEBUG b"]))
        sampleWork (lit "INFO")).1 = some (lit "a\n\tx y \n") :=
  ⟨by decide, by decide, if_pos rfl,
    (getLogContent_trims_spaces_only
      (sampleFSOf ([lit "INFO a"] ++ [lit "INFO" ++ lit "  " ++ lit "\tx y "] ++ [lit "DEBUG b"]))
      sampleWork (lit "INFO") (lit "  ") (lit "\tx y ") [lit "INFO a"] [lit "DEBUG b"]
      (by decide) (by decide) (if_pos rfl)).trans (by decide)⟩

/-- C18: on the success path `GetLogContent` distributes over concatenation of logs:
for every prefix filter and line sequences `L1`, `L2`, the result for the log
`L1 ++ L2` is the result for `L1` followed by the result for `L2`; the result for the
empty log is the empty string. -/
theorem getLogContent_append (fs0 fs1 fs2 fs12 : FileSystem) (wr : WorkRequest)
    (p : GoString) (L1 L2 : List GoString)
    (h0 : fs0 wr.LogFilename = Except.ok { lines := [], scanErr := none })
    (h1 : fs1 wr.LogFilename = Except.ok { lines := L1, scanErr := none })
    (h2 : fs2 wr.LogFilename = Except.ok { lines := L2, scanErr := none })
    (h12 : fs12 wr.LogFilename = Except.ok { lines := L1 ++ L2, scanErr := none }) :
    (∃ r1 r2 : GoString,
      (GetLogContent fs1 wr p).1 = some r1 ∧
      (GetLogContent fs2 wr p).1 = some r2 ∧
      (GetLogContent fs12 wr p).1 = some (r1 ++ r2)) ∧
    (GetLogContent fs0 wr p).1 = some [] := by
  refine ⟨⟨filteredView p L1, filteredView p L2, ?_, ?_, ?_⟩, ?_⟩
  · exact getLogContent_opened fs1 wr p L1 none h1
  · exact getLogContent_opened fs2 wr p L2 none h2
  · rw [getLogContent_opened fs12 wr p (L1 ++ L2) none h12]
    show some (filteredView p (L1 ++ L2)) = _
    rw [filteredView_append]
  · exact getLogContent_opened fs0 wr p [] none h0

/-- C18 at the log `INFO hello`, `DEBUG skip`, `INFO world` cut after its first line. -/
theorem getLogContent_append_witness :
    (GetLogContent (sampleFSOf [lit "INFO hello"]) sampleWork (lit "INFO")).1
      = some (lit "hello\n") ∧
    (GetLogContent (sampleFSOf [lit "DEBUG skip", lit "INFO world"]) sampleWork (lit "INFO")).1
      = some (lit "world\n") ∧
    (GetLogContent (sampleFSOf ([lit "INFO hello"] ++ [lit "DEBUG skip", lit "INFO world"]))
      sampleWork (lit "INFO")).1 = some (lit "hello\n" ++ lit "world\n") ∧
    ((∃ r1 r2 : GoString,
      (GetLogContent (sampleFSOf [lit "INFO hello"]) sampleWork (lit "INFO")).1 = some r1 ∧
      (GetLogContent (sampleFSOf [lit "DEBUG skip", lit "INFO world"]) sampleWork
        (lit "INFO")).1 = some r2 ∧
      (GetLogContent (sampleFSOf ([lit "INFO hello"] ++ [lit "DEBUG skip", lit "INFO world"]))
        sampleWork (lit "INFO")).1 = some (r1 ++ r2)) ∧
    (GetLogContent (sampleFSOf []) sampleWork (lit "INFO")).1 = some []) :=
  ⟨by decide, by decide, by decide,
    getLogContent_append (sampleFSOf []) (sampleFSOf [lit "INFO hello"])
      (sampleFSOf [lit "DEBUG skip", lit "INFO world"])
      (sampleFSOf ([lit "INFO hello"] ++ [lit "DEBUG skip", lit "INFO world"]))
      sampleWork (lit "INFO") [lit "INFO hello"] [lit "DEBUG skip", lit "INFO world"]
      (if_pos rfl) (if_pos rfl) (if_pos rfl) (if_pos rfl)⟩

/-- Dropping a terminal carriage return removes bytes only. -/
theorem dropCR_sublist (data : GoString) : (dropCR data).Sublist data := by
  unfold dropCR
  split
  · exact List.dropLast_sublist data
  · exact List.Sublist.refl data

/-- Dropping a terminal carriage return does not bring a space to the front. -/
theorem dropCR_head (data : GoString) (h : data.head? ≠ some 32) :
    (dropCR data).head? ≠ some 32 := by
  unfold dropCR
  split
  · cases data with
    | nil => simp
    | cons a rest =>
      cases rest with
      | nil => simp
      | cons b rest2 => simpa [List.dropLast] using h
  · exact h

/-- Data without a terminal carriage return is a token as it stands. -/
theorem dropCR_eq_self (data : GoString) (h : data.getLast? ≠ some 13) : dropCR data = data := by
  unfold dropCR
  rw [if_neg h]

/-- No token of the line scan holds a newline byte. -/
theorem scanAcc_no_newline :
    ∀ (data cur : GoString), (10 : UInt8) ∉ cur → ∀ l ∈ scanAcc cur data, (10 : UInt8) ∉ l := by
  intro data
  induction data with
  | nil =>
    intro cur hcur l hl
    unfold scanAcc at hl
    split at hl
    · simp at hl
    · rw [List.mem_singleton] at hl
      subst hl
      exact fun hm => hcur ((dropCR_sublist cur).subset hm)
  | cons b data ih =>
    intro cur hcur l hl
    unfold scanAcc at hl
    split at hl
    · rcases List.mem_cons.1 hl with hl | hl
      · subst hl
        exact fun hm => hcur ((dropCR_sublist cur).subset hm)
      · exact ih [] (by simp) l hl
    · rename_i hb
      apply ih (cur ++ [b]) _ l hl
      simp only [List.mem_append, List.mem_singleton, not_or]
      exact ⟨hcur, fun h => hb h.symm⟩

/-- The line scan cuts a newline-free run followed by a newline into one token. -/
theorem scanAcc_line (data : GoString) :
    ∀ (q cur : GoString), (10 : UInt8) ∉ q →
      scanAcc cur (q ++ 10 :: data) = dropCR (cur ++ q) :: scanAcc [] data := by
  intro q
  induction q with
  | nil =>
    intro cur _
    simp [scanAcc]
  | cons b q ih =>
    intro cur hq
    have hb : b ≠ 10 := fun h => hq (by simp [h])
    have hq2 : (10 : UInt8) ∉ q := fun h => hq (List.mem_cons_of_mem _ h)
    rw [List.cons_append, scanAcc, if_neg hb, ih (cur ++ [b]) hq2]
    simp

/-- Scanning newline-terminated pieces gives the pieces back, each without one
terminal carriage return. -/
theorem scanLines_pieces (pieces : List GoString) (h : ∀ q ∈ pieces, (10 : UInt8) ∉ q) :
    scanLines ((pieces.map (fun q => q ++ [10])).flatten) = pieces.map dropCR := by
  unfold scanLines
  induction pieces with
  | nil => simp [scanAcc]
  | cons q ps ih =>
    have hq : (10 : UInt8) ∉ q := h q (List.mem_cons_self q ps)
    have hps : ∀ r ∈ ps, (10 : UInt8) ∉ r := fun r hr => h r (List.mem_cons_of_mem _ hr)
    rw [List.map_cons, List.flatten_cons, List.append_assoc, List.singleton_append,
      scanAcc_line _ q [] hq, ih hps]
    simp

/-- The filtered view as a list of emitted lines, each followed by a newline. -/
theorem filteredView_pieces (p : GoString) (L : List GoString) :
    filteredView p L =
      (((L.filter (fun l => decide (p <+: l))).map
        (fun l => (l.drop p.length).dropWhile (fun b => b == 32))).map
          (fun q => q ++ [10])).flatten := by
  simp [filteredView, List.map_map, Function.comp_def]

/-- Re-reading newline-terminated pieces that hold no newline and start with no
space: no line read back starts with a space, and the view under the empty filter is
the text itself when the text has no carriage return before a newline. -/
theorem refilter_pieces (pieces : List GoString) (h10 : ∀ q ∈ pieces, (10 : UInt8) ∉ q)
    (hsp : ∀ q ∈ pieces, q.head? ≠ some 32) :
    (∀ l ∈ scanLines ((pieces.map (fun q => q ++ [10])).flatten), l.head? ≠ some 32) ∧
    (¬ ([13, 10] : GoString) <:+: (pieces.map (fun q => q ++ [10])).flatten →
      filteredView [] (scanLines ((pieces.map (fun q => q ++ [10])).flatten)) =
        (pieces.map (fun q => q ++ [10])).flatten) := by
  rw [scanLines_pieces pieces h10]
  constructor
  · intro l hl
    obtain ⟨q, hq, rfl⟩ := List.mem_map.1 hl
    exact dropCR_head q (hsp q hq)
  · intro hcr
    have hlast : ∀ q ∈ pieces, q.getLast? ≠ some 13 := by
      intro q hq hq13
      obtain ⟨ys, hys⟩ := List.getLast?_eq_some_iff.1 hq13
      apply hcr
      have hmem : q ++ [10] ∈ pieces.map (fun q => q ++ [10]) := List.mem_map.2 ⟨q, hq, rfl⟩
      have hin : ([13, 10] : GoString) <:+: q ++ [10] :=
        ⟨ys, [], by rw [hys]; simp⟩
      exact hin.trans (List.infix_of_mem_flatten hmem)
    have hmap : pieces.map dropCR = pieces := by
      conv_rhs => rw [← List.map_id pieces]
      apply List.map_congr_left
      intro q hq
      exact dropCR_eq_self q (hlast q hq)
    rw [hmap, filteredView_nil]
    congr 1
    apply List.map_congr_left
    intro q hq
    have hq32 := hsp q hq
    cases q with
    | nil => rfl
    | cons c rest =>
      have hc : c ≠ 32 := fun h => hq32 (by simp [h])
      simp [List.dropWhile_cons, hc]

/-- C19, as the claim states it, fails: the log bytes `a\r\r\n` scan to the line
`a\r`, which the empty filter emits as `a\r\n`; that text, taken as a new log, scans
to the line `a`, and the empty filter then returns `a\n`. -/
theorem refilter_counterexample :
    (GetLogContent (sampleFSOf (scanLines (lit "a\r\r\n"))) sampleWork []).1
      = some (lit "a\r\n") ∧
    (GetLogContent (sampleFSOf (scanLines (lit "a\r\n"))) sampleWork []).1
      = some (lit "a\n") ∧
    lit "a\n" ≠ lit "a\r\n" ∧
    ∀ l ∈ scanLines (lit "a\r\n"), l.head? ≠ some 32 := by
  decide

/-- C19, amended: for every prefix filter `p` and every readable log, no line of the
result `R` of `GetLogContent(p)` begins with a space; and taking the lines of `R` as a
new log, `GetLogContent("")` on it returns `R` again, provided no line of `R` ends in
a carriage return, that is, `R` has no carriage return right before a newline. -/
theorem refilter_idempotent (fs1 fs2 : FileSystem) (wr : WorkRequest)
    (p content R : GoString)
    (h1 : fs1 wr.LogFilename = Except.ok { lines := scanLines content, scanErr := none })
    (hR : (GetLogContent fs1 wr p).1 = some R)
    (h2 : fs2 wr.LogFilename = Except.ok { lines := scanLines R, scanErr := none }) :
    (∀ l ∈ scanLines R, l.head? ≠ some 32) ∧
    (¬ ([13, 10] : GoString) <:+: R → (GetLogContent fs2 wr []).1 = some R) := by
  have hview : R = filteredView p (scanLines content) := by
    rw [getLogContent_opened fs1 wr p _ none h1] at hR
    exact (Option.some.inj hR).symm
  have htok : ∀ l ∈ scanLines content, (10 : UInt8) ∉ l :=
    scanAcc_no_newline content [] (by simp)
  have h10 : ∀ q ∈ ((scanLines content).filter (fun l => decide (p <+: l))).map
      (fun l => (l.drop p.length).dropWhile (fun b => b == 32)), (10 : UInt8) ∉ q := by
    intro q hq hm
    obtain ⟨l, hl, rfl⟩ := List.mem_map.1 hq
    have hl2 : l ∈ scanLines content := (List.mem_filter.1 hl).1
    exact htok l hl2 ((List.drop_sublist _ _).subset ((List.dropWhile_sublist _).subset hm))
  have hsp : ∀ q ∈ ((scanLines content).filter (fun l => decide (p <+: l))).map
      (fun l => (l.drop p.length).dropWhile (fun b => b == 32)), q.head? ≠ some 32 := by
    intro q hq h32
    obtain ⟨l, _, rfl⟩ := List.mem_map.1 hq
    have hnot := List.head?_dropWhile_not (fun b => b == 32) (l.drop p.length)
    rw [h32] at hnot
    simp at hnot
  have hre := refilter_pieces _ h10 hsp
  rw [← filteredView_pieces, ← hview] at hre
  refine ⟨hre.1, fun hcr => ?_⟩
  rw [getLogContent_opened fs2 wr [] _ none h2]
  show some (filteredView [] (scanLines R)) = _
  rw [hre.2 hcr]

/-- C19, amended, at the log bytes of `INFO  hello`, `DEBUG skip`, `INFO world`. -/
theorem refilter_idempotent_witness :
    sampleFSOf (scanLines (lit "INFO  hello\nDEBUG skip\nINFO world\n")) sampleWork.LogFilename
      = Except.ok
        { lines := scanLines (lit "INFO  hello\nDEBUG skip\nINFO world\n"), scanErr := none } ∧
    (GetLogContent (sampleFSOf (scanLines (lit "INFO  hello\nDEBUG skip\nINFO world\n")))
      sampleWork (lit "INFO")).1 = some (lit "hello\nworld\n") ∧
    ¬ ([13, 10] : GoString) <:+: lit "hello\nworld\n" ∧
    (GetLogContent (sampleFSOf (scanLines (lit "hello\nworld\n"))) sampleWork []).1
      = some (lit "hello\nworld\n") :=
  ⟨if_pos rfl, by decide, by decide,
    (refilter_idempotent
      (sampleFSOf (scanLines (lit "INFO  hello\nDEBUG skip\nINFO world\n")))
      (sampleFSOf (scanLines (lit "hello\nworld\n"))) sampleWork (lit "INFO")
      (lit "INFO  hello\nDEBUG skip\nINFO world\n") (lit "hello\nworld\n")
      (if_pos rfl) (by decide) (if_pos rfl)).2 (by decide)⟩

end Webhookd
